import Mathlib

/-!
# ARM Invaders simulator: embedding of `arm_invaders_sim.c`

Machine integers are natural numbers or integers with explicit reduction
modulo the width of the C type.  The arithmetic, parsing and persistence
functions are modelled without their terminal output; the command interpreter
records what it prints as a list of events.  The display-only fields `pos` and
`dir` of `CPU` are read by no function modelled here.
-/

namespace ArmInvaders

/-! ## Machine integers -/

/-- The macro `NUM_REGS`, defined as 8. -/
@[reducible] def NUM_REGS : Nat := 8

/-- Truncation of an unsigned value to `uint32_t`. -/
def wrap32 (n : Nat) : Nat := n % 4294967296

/-- Truncation of an unsigned value to `uint64_t`. -/
def wrap64 (n : Nat) : Nat := n % 18446744073709551616

/-- The cast `(int32_t)a` of a `uint32_t`: two's-complement reading. -/
def toInt32 (a : Nat) : Int :=
  if wrap32 a < 2147483648 then (wrap32 a : Int) else (wrap32 a : Int) - 4294967296

/-- Two's-complement reduction of an integer to `int64_t`. -/
def wrapInt64 (z : Int) : Int :=
  (z + 9223372036854775808) % 18446744073709551616 - 9223372036854775808

/-- The constant `INT32_MIN`. -/
def INT32_MIN : Int := -2147483648

/-- The constant `INT32_MAX`. -/
def INT32_MAX : Int := 2147483647

/-! ## Data model -/

/-- The struct `Flags`: four `uint8_t` fields `N`, `Z`, `C`, `V`. -/
structure Flags where
  N : Nat
  Z : Nat
  C : Nat
  V : Nat
  deriving DecidableEq, Repr

/-- The struct `CPU`: the `uint32_t` registers `r[NUM_REGS]`, the flags and the
`uint64_t` turn counter. -/
structure CPU where
  r : Fin NUM_REGS → Nat
  flags : Flags
  turns : Nat

/-- The assignment `cpu->r[x] = v`. -/
def setReg (r : Fin NUM_REGS → Nat) (x : Fin NUM_REGS) (v : Nat) : Fin NUM_REGS → Nat :=
  fun j => if j = x then v else r j

/-! ## Flag helpers -/

/-- Function `update_flags_add`: the bitwise operators act on the `int32_t` values
`sa`, `sb`, `sr`; on sign-extended integers `Int.xor`, `Int.land` and
`Int.lnot` are the same two's-complement operations. -/
def update_flags_add (_f : Flags) (a b res : Nat) : Flags :=
  let wide := wrap64 (a + b)
  let sa := toInt32 a
  let sb := toInt32 b
  let sr := toInt32 res
  { N := (res >>> 31) &&& 1
    Z := if res = 0 then 1 else 0
    C := if wide > 0xFFFFFFFF then 1 else 0
    V := if Int.land (Int.lnot (Int.xor sa sb)) (Int.xor sa sr) < 0 then 1 else 0 }

/-- Function `update_flags_sub`. -/
def update_flags_sub (_f : Flags) (a b res : Nat) : Flags :=
  let sa := toInt32 a
  let sb := toInt32 b
  let sr := toInt32 res
  { N := (res >>> 31) &&& 1
    Z := if res = 0 then 1 else 0
    C := if a ≥ b then 1 else 0
    V := if Int.land (Int.xor sa sb) (Int.xor sa sr) < 0 then 1 else 0 }

/-- Function `update_flags_mul_didatic`: the signed product is formed in
`int64_t`. -/
def update_flags_mul_didatic (_f : Flags) (a b res : Nat) : Flags :=
  let wide := wrap64 (a * b)
  let s_wide := wrapInt64 (toInt32 a * toInt32 b)
  { N := (res >>> 31) &&& 1
    Z := if res = 0 then 1 else 0
    C := if wide > 0xFFFFFFFF then 1 else 0
    V := if s_wide < INT32_MIN ∨ s_wide > INT32_MAX then 1 else 0 }

/-! ## Operations -/

/-- Function `op_add_imm`: `a + k` on `uint32_t` wraps modulo 2^32. -/
def op_add_imm (cpu : CPU) (x : Fin NUM_REGS) (k : Nat) : CPU :=
  let a := cpu.r x
  let res := wrap32 (a + k)
  { r := setReg cpu.r x res
    flags := update_flags_add cpu.flags a k res
    turns := wrap64 (cpu.turns + 1) }

/-- Function `op_sub_imm`: `a - k` on `uint32_t` wraps modulo 2^32. -/
def op_sub_imm (cpu : CPU) (x : Fin NUM_REGS) (k : Nat) : CPU :=
  let a := cpu.r x
  let res := (((a : Int) - (k : Int)) % 4294967296).toNat
  { r := setReg cpu.r x res
    flags := update_flags_sub cpu.flags a k res
    turns := wrap64 (cpu.turns + 1) }

/-- Function `op_mul_reg`: both operands are read before the destination is written. -/
def op_mul_reg (cpu : CPU) (x y : Fin NUM_REGS) : CPU :=
  let a := cpu.r x
  let b := cpu.r y
  let res := wrap32 (a * b)
  { r := setReg cpu.r x res
    flags := update_flags_mul_didatic cpu.flags a b res
    turns := wrap64 (cpu.turns + 1) }

/-- Function `op_mov_imm`. -/
def op_mov_imm (cpu : CPU) (x : Fin NUM_REGS) (k : Nat) : CPU :=
  { r := setReg cpu.r x k
    flags := { N := (k >>> 31) &&& 1, Z := if k = 0 then 1 else 0, C := 0, V := 0 }
    turns := wrap64 (cpu.turns + 1) }

/-- Function `reset`: every register 100, flags cleared, turn counter zero. -/
def reset : CPU :=
  { r := fun _ => 100
    flags := { N := 0, Z := 0, C := 0, V := 0 }
    turns := 0 }

/-! ## C library routines used by the parsers

`long` and `unsigned long` are 64 bits wide (LP64).  A C string is the list of
its characters before the terminating NUL. -/

/-- The constant `LONG_MAX`. -/
def LONG_MAX : Int := 9223372036854775807

/-- The constant `LONG_MIN`. -/
def LONG_MIN : Int := -9223372036854775808

/-- The constant `ULONG_MAX`. -/
def ULONG_MAX : Nat := 18446744073709551615

/-- The classifier `isspace` in the C locale. -/
def isspace (c : Char) : Bool :=
  c = ' ' || c = '\t' || c = '\n' || c = '\x0b' || c = '\x0c' || c = '\r'

/-- The classifier `isdigit`. -/
def isdigit (c : Char) : Bool := decide (48 ≤ c.toNat) && decide (c.toNat ≤ 57)

/-- Value of a run of decimal digits, most significant first. -/
def digitsValue (ds : List Char) : Nat :=
  ds.foldl (fun acc c => 10 * acc + (c.toNat - 48)) 0

/-- The optional sign of `strtol`/`strtoul`: whether it is a minus, and the
text after it. -/
def splitSign : List Char → Bool × List Char
  | '-' :: t => (true, t)
  | '+' :: t => (false, t)
  | s => (false, s)

/-- The call `strtol(nptr, &end, 10)`: the value, the text at `end`, and whether
`errno` is set to `ERANGE`.  White space is skipped, a sign is optional, the
longest run of digits is converted and an out-of-range value saturates; with no
digit at all the value is 0 and `end` is `nptr`. -/
def strtol (nptr : List Char) : Int × List Char × Bool :=
  let s := nptr.dropWhile isspace
  let neg := (splitSign s).1
  let s1 := (splitSign s).2
  let ds := s1.takeWhile isdigit
  let rest := s1.dropWhile isdigit
  let n : Int := digitsValue ds
  if ds = [] then (0, nptr, false)
  else if neg then
    if -n < LONG_MIN then (LONG_MIN, rest, true) else (-n, rest, false)
  else
    if n > LONG_MAX then (LONG_MAX, rest, true) else (n, rest, false)

/-- The call `strtoul(nptr, &end, 10)`: as `strtol`, saturating at `ULONG_MAX`; a
minus sign negates the value as an `unsigned long`. -/
def strtoul (nptr : List Char) : Nat × List Char × Bool :=
  let s := nptr.dropWhile isspace
  let neg := (splitSign s).1
  let s1 := (splitSign s).2
  let ds := s1.takeWhile isdigit
  let rest := s1.dropWhile isdigit
  let n := digitsValue ds
  if ds = [] then (0, nptr, false)
  else if n > ULONG_MAX then (ULONG_MAX, rest, true)
  else if neg then (wrap64 (18446744073709551616 - n), rest, false)
  else (n, rest, false)

/-- The call `atoi(nptr)`, that is `(int) strtol(nptr, NULL, 10)`. -/
def atoi (nptr : List Char) : Int :=
  ((strtol nptr).1 + 2147483648) % 4294967296 - 2147483648

/-- Output of `%d`, `%u` and `PRIu32` for a non-negative value. -/
def fmt_dec (n : Nat) : List Char := Nat.toDigits 10 n

/-- The characters one `fgets` call stores when `room` characters still fit,
and the rest of the stream: reading stops after a newline. -/
def fgets_take : Nat → List Char → List Char × List Char
  | 0, s => ([], s)
  | _ + 1, [] => ([], [])
  | room + 1, c :: s =>
    if c = '\n' then ([c], s)
    else ((fgets_take room s).1.cons c, (fgets_take room s).2)

/-- The call `fgets(buf, size, fp)`: `none` at end of file, else the characters stored
in `buf` and the rest of the stream. -/
def fgets (size : Nat) (stream : List Char) : Option (List Char × List Char) :=
  if stream = [] then none else some (fgets_take (size - 1) stream)

/-- The C string held in a buffer: the characters before the first NUL. -/
def cstr (buf : List Char) : List Char := buf.takeWhile (fun c => c != '\x00')

/-! ## Register-reference parsing -/

/-- Function `parse_reg(tok, &out)`: the return value and the content of `out`
afterwards; `tok = none` is the null pointer. -/
def parse_reg (tok : Option (List Char)) (out : Int) : Int × Int :=
  match tok with
  | none => (0, out)
  | some [] => (0, out)
  | some (c :: t) =>
    let tok1 := if c = 'r' ∨ c = 'R' then t else c :: t
    let v := (strtol tok1).1
    let end_ := (strtol tok1).2.1
    if end_ = [] ∧ v ≥ 0 ∧ v < NUM_REGS then (1, v) else (0, out)

/-! ## State I/O -/

/-- Function `save_state`: the text written to the file once `fopen` has succeeded. -/
def save_state (cpu : CPU) : List Char :=
  "# ARM Invaders save\n".toList ++
  ((List.finRange NUM_REGS).map
    (fun i => "r".toList ++ fmt_dec i.val ++ "=".toList ++ fmt_dec (cpu.r i) ++ "\n".toList)).flatten ++
  ("N=".toList ++ fmt_dec cpu.flags.N ++ " Z=".toList ++ fmt_dec cpu.flags.Z ++
   " C=".toList ++ fmt_dec cpu.flags.C ++ " V=".toList ++ fmt_dec cpu.flags.V ++ "\n".toList)

/-- The test that `sscanf` on the line with the format `%15[^=]=%63s` returns 2,
and the key and value it stores: the key is the longest run
of at most 15 characters other than `=` (at least one), then `=` must follow;
the value is, after optional white space, the longest run of at most 63
characters that are not white space (at least one). -/
def sscanf_key_val (line : List Char) : Option (List Char × List Char) :=
  let key := (line.takeWhile (fun c => c != '=')).take 15
  if key = [] then none
  else
    match line.drop key.length with
    | '=' :: rest =>
      let val := ((rest.dropWhile isspace).takeWhile (fun c => !isspace c)).take 63
      if val = [] then none else some (key, val)
    | _ => none

/-- Body of the `while (fgets(...))` loop of `load_state` for one line. -/
def load_line (cpu : CPU) (line : List Char) : CPU :=
  if line.head? = some '#' ∨ line.head? = some '\n' then cpu
  else
    match sscanf_key_val line with
    | none => cpu
    | some (key, val) =>
      if key.head? = some 'r' then
        if h : 0 ≤ atoi key.tail ∧ atoi key.tail < NUM_REGS then
          { cpu with r := setReg cpu.r ⟨(atoi key.tail).toNat, by omega⟩
                          (wrap32 (strtoul val).1) }
        else cpu
      else if key = "N".toList then
        { cpu with flags := { cpu.flags with N := (atoi val % 256).toNat } }
      else if key = "Z".toList then
        { cpu with flags := { cpu.flags with Z := (atoi val % 256).toNat } }
      else if key = "C".toList then
        { cpu with flags := { cpu.flags with C := (atoi val % 256).toNat } }
      else if key = "V".toList then
        { cpu with flags := { cpu.flags with V := (atoi val % 256).toNat } }
      else cpu

/-- The `while (fgets(line, 128, fp))` loop of `load_state`, at most `fuel`
iterations. -/
def load_loop : Nat → CPU → List Char → CPU
  | 0, cpu, _ => cpu
  | fuel + 1, cpu, stream =>
    match fgets 128 stream with
    | none => cpu
    | some (buf, rest) => load_loop fuel (load_line cpu (cstr buf)) rest

/-- Function `load_state`: the return value and the bank afterwards; `file = none`
when `fopen` fails.  Every `fgets` call consumes a character, so as many
iterations as the file has characters exhaust it. -/
def load_state (cpu : CPU) (file : Option (List Char)) : Int × CPU :=
  match file with
  | none => (0, cpu)
  | some content => (1, load_loop content.length cpu content)

/-! ## Immediate parsing and random numbers -/

/-- Function `parse_u32(tok, &out)`: the return value and the content of `out`
afterwards; `tok = none` is the null pointer.  The `unsigned long` result of
`strtoul` is cast to `uint32_t`. -/
def parse_u32 (tok : Option (List Char)) (out : Nat) : Int × Nat :=
  match tok with
  | none => (0, out)
  | some t =>
    let v := (strtoul t).1
    let end_ := (strtoul t).2.1
    let errno := (strtoul t).2.2
    if errno then (0, out)
    else if end_ = [] then (1, wrap32 v)
    else (0, out)

/-- The constant `RAND_MAX` of the C library: `2^31 - 1`. -/
def RAND_MAX : Nat := 2147483647

/-- Function `urand_range`, given the results `r1` and `r2` of its two calls of
`rand()`, `r1` being the one that is shifted left. -/
def urand_range (a b : Nat) (r1 r2 : Nat) : Nat :=
  let lo := if a > b then b else a
  let hi := if a > b then a else b
  let span := wrap64 (wrap64 (hi - lo) + 1)
  let r := Nat.xor (wrap64 (r1 <<< 32)) r2
  wrap32 (lo + wrap32 (r % span))

/-! ## Command interpreter -/

/-- The macro `ANIM_FRAMES`, defined as 6. -/
def ANIM_FRAMES : Nat := 6

/-- What the interpreter writes to the terminal, one constructor per kind of
output: the trace line of an executed instruction, a call of
`animate_and_redraw` with its frame count, a call of `show_state`, the
explosion drawn when the destination register became zero, the usage hints
and the other messages. -/
inductive Event where
  | asm
  | animate (frames : Nat)
  | show_state
  | explosion
  | usage_add
  | usage_sub
  | usage_mul
  | usage_mov
  | usage_rand
  | saved
  | save_failed
  | loaded
  | load_failed
  | script_failed
  | unrecognized
  deriving DecidableEq, Repr

/-- The interpreter session: the register bank, the files (content by path,
and which paths can be opened for writing), the sequence of values `rand()`
returns with the number of calls made so far, and the terminal output.  Two
paths name the same file when `canon` maps them to the same canonical path,
and `open_scripts` lists the canonical paths of the script files `run_script`
has open for reading at the moment, innermost first. -/
structure Session where
  cpu : CPU
  files : List Char → Option (List Char)
  writable : List Char → Bool
  rnd : Nat → Nat
  rnd_pos : Nat
  out : List Event
  canon : List Char → List Char
  open_scripts : List (List Char)

/-- The function `tolower` in the C locale. -/
def tolower (c : Char) : Char := c.toLower

/-- The tokens that successive `strtok` calls with the delimiters space and tab
return: the maximal runs of other characters.  The second argument is the
token being read, in reverse. -/
def tokens_aux : List Char → List Char → List (List Char)
  | [], cur => if cur = [] then [] else [cur.reverse]
  | c :: s, cur =>
    if c = ' ' ∨ c = '\t' then
      if cur = [] then tokens_aux s [] else cur.reverse :: tokens_aux s []
    else tokens_aux s (c :: cur)

/-- The tokens of a line, in order. -/
def tokens (s : List Char) : List (List Char) := tokens_aux s []

/-- The tokens `process_line` cuts a line into: the line is copied into a
buffer of 256 characters (at most 255 of them are kept) and lower-cased
first. -/
def line_tokens (line : List Char) : List (List Char) :=
  tokens ((line.take 255).map tolower)

/-- The register index held in the `int` that `parse_reg` wrote; it is in
`0..7` whenever `parse_reg` succeeded. -/
def reg_index (v : Int) : Fin NUM_REGS := Fin.ofNat v.toNat

/-- Output of an executed instruction with destination `x`: the trace line,
the animation, and the explosion when `r[x]` is now zero. -/
def exec_events (cpu : CPU) (x : Fin NUM_REGS) : List Event :=
  [Event.asm, Event.animate ANIM_FRAMES] ++ (if cpu.r x = 0 then [Event.explosion] else [])

/-- The session after an instruction has produced the bank `cpu1` with
destination `x`. -/
def executed (s : Session) (cpu1 : CPU) (x : Fin NUM_REGS) : Session :=
  { s with cpu := cpu1, out := s.out ++ exec_events cpu1 x }

/-- The session after a message has been printed. -/
def say (s : Session) (e : Event) : Session := { s with out := s.out ++ [e] }

/-- The file system after `save_state` has written `text` to `path`: every
path that names the same file now has that content. -/
def write_file (canon : List Char → List Char) (files : List Char → Option (List Char))
    (path text : List Char) : List Char → Option (List Char) :=
  fun p => if canon p = canon path then some text else files p

/-- Body of `process_line`, with the function that runs a script file as a
parameter; `none` when that function does not return.  The locals that
receive the operands are read only after their parser has succeeded, and the
two `rand()` calls of `urand_range` are taken in the order they are written.
A `save` that opens for writing a script file that `run_script` is still
reading truncates that file under the reader; what `fgets` returns afterwards
depends on how much of the file the C library had buffered, which is not
modelled, so the result is `none` in that case too. -/
def dispatch (script : Session → List Char → Option (Int × Session)) (s : Session)
    (line : List Char) : Option (Int × Session) :=
  match line_tokens line with
  | [] => some (1, s)
  | tok :: args =>
    let t1 := args.get? 0
    let t2 := args.get? 1
    let t3 := args.get? 2
    if tok = "add".toList then
      if (parse_reg t1 0).1 ≠ 0 ∧ (parse_u32 t2 0).1 ≠ 0 then
        let x := reg_index (parse_reg t1 0).2
        some (1, executed s (op_add_imm s.cpu x (parse_u32 t2 0).2) x)
      else some (1, say s Event.usage_add)
    else if tok = "sub".toList then
      if (parse_reg t1 0).1 ≠ 0 ∧ (parse_u32 t2 0).1 ≠ 0 then
        let x := reg_index (parse_reg t1 0).2
        some (1, executed s (op_sub_imm s.cpu x (parse_u32 t2 0).2) x)
      else some (1, say s Event.usage_sub)
    else if tok = "mul".toList then
      if (parse_reg t1 0).1 ≠ 0 ∧ (parse_reg t2 0).1 ≠ 0 then
        let x := reg_index (parse_reg t1 0).2
        some (1, executed s (op_mul_reg s.cpu x (reg_index (parse_reg t2 0).2)) x)
      else some (1, say s Event.usage_mul)
    else if tok = "mov".toList then
      if (parse_reg t1 0).1 ≠ 0 ∧ (parse_u32 t2 0).1 ≠ 0 then
        let x := reg_index (parse_reg t1 0).2
        some (1, executed s (op_mov_imm s.cpu x (parse_u32 t2 0).2) x)
      else some (1, say s Event.usage_mov)
    else if tok = "rand".toList then
      if (parse_reg t1 0).1 ≠ 0 ∧ (parse_u32 t2 0).1 ≠ 0 ∧ (parse_u32 t3 0).1 ≠ 0 then
        let x := reg_index (parse_reg t1 0).2
        let v := urand_range (parse_u32 t2 0).2 (parse_u32 t3 0).2
          (s.rnd s.rnd_pos) (s.rnd (s.rnd_pos + 1))
        some (1, executed { s with rnd_pos := s.rnd_pos + 2 } (op_mov_imm s.cpu x v) x)
      else some (1, say s Event.usage_rand)
    else if tok = "save".toList then
      match t1 with
      | none => some (1, say s Event.save_failed)
      | some path =>
        if s.writable path then
          if s.canon path ∈ s.open_scripts then none
          else
            some (1, say
              { s with files := write_file s.canon s.files path (save_state s.cpu) }
              Event.saved)
        else some (1, say s Event.save_failed)
    else if tok = "load".toList then
      match t1 with
      | none => some (1, say s Event.load_failed)
      | some path =>
        if (load_state s.cpu (s.files path)).1 ≠ 0 then
          some (1, { s with cpu := (load_state s.cpu (s.files path)).2,
                            out := s.out ++ [Event.loaded, Event.animate 2] })
        else some (1, say s Event.load_failed)
    else if tok = "script".toList then
      match t1 with
      | none => some (1, say s Event.script_failed)
      | some path =>
        match script s path with
        | none => none
        | some (ret, s1) =>
          if ret ≠ 0 then some (1, say s1 (Event.animate 2))
          else some (1, say s1 Event.script_failed)
    else if tok = "show".toList then some (1, say s Event.show_state)
    else if tok = "reset".toList then
      some (1, say { s with cpu := reset, rnd_pos := s.rnd_pos + 2 * NUM_REGS }
        (Event.animate 2))
    else if tok = "help".toList then some (1, say s Event.show_state)
    else if tok = "quit".toList ∨ tok = "exit".toList then some (0, s)
    else some (1, say s Event.unrecognized)

/-- The `while (fgets(buf, 256, fp))` loop of `run_script`, at most `fuel`
iterations, with the line interpreter as a parameter.  A line that is empty or
starts with `#` after its leading white space is skipped; the value returned by
the line interpreter is not looked at. -/
def script_loop (pl : Session → List Char → Option (Int × Session)) :
    Nat → Session → List Char → Option Session
  | 0, s, stream => if stream = [] then some s else none
  | fuel + 1, s, stream =>
    match fgets 256 stream with
    | none => some s
    | some (buf, rest) =>
      let p := (cstr buf).dropWhile isspace
      if p = [] ∨ p.head? = some '#' then script_loop pl fuel s rest
      else
        match pl s (if p.getLast? = some '\n' then p.dropLast else p) with
        | none => none
        | some (_, s1) => script_loop pl fuel s1 rest

/-- Function `run_script`, with the line interpreter as a parameter: returns 0
when the file cannot be opened, else replays the lines of the file and returns
1.  The file is open for reading from `fopen` to `fclose`; while it is, no
line can write to it without the result being `none`, so the text read is the
content the file had when it was opened. -/
def run_script (pl : Session → List Char → Option (Int × Session)) (s : Session)
    (path : List Char) : Option (Int × Session) :=
  match s.files path with
  | none => some (0, s)
  | some content =>
    (script_loop pl content.length
      { s with open_scripts := s.canon path :: s.open_scripts } content).map
      (fun s1 => (1, { s1 with open_scripts := s.open_scripts }))

/-- Function `process_line`: the return value (0 to end the session, 1 to go
on) and the session afterwards.  The first argument bounds how deep `script`
commands may nest; `none` when the nesting goes deeper, or when a `save`
writes to a script file that is being replayed. -/
def process_line : Nat → Session → List Char → Option (Int × Session)
  | 0 => dispatch (run_script (fun _ _ => none))
  | depth + 1 => dispatch (run_script (process_line depth))

/-- The read loop of `main`, on the text typed at the prompt: a line is read
with `fgets` into a buffer of 256 characters, its newline removed, an empty
line skipped, and the loop ends when `process_line` returns 0 or at end of
input. -/
def main_loop (depth : Nat) : Nat → Session → List Char → Option Session
  | 0, s, stream => if stream = [] then some s else none
  | fuel + 1, s, stream =>
    match fgets 256 stream with
    | none => some s
    | some (buf, rest) =>
      let line := if (cstr buf).getLast? = some '\n' then (cstr buf).dropLast else cstr buf
      if line = [] then main_loop depth fuel s rest
      else
        match process_line depth s line with
        | none => none
        | some (cont, s1) => if cont = 0 then some s1 else main_loop depth fuel s1 rest

/-! ## Vocabulary of the claims about the interpreter -/

/-- The keywords of the five instructions. -/
def instruction_keywords : List (List Char) :=
  ["add".toList, "sub".toList, "mul".toList, "mov".toList, "rand".toList]

/-- The keywords `process_line` compares the first token with. -/
def keywords : List (List Char) :=
  instruction_keywords ++
    ["save".toList, "load".toList, "script".toList, "show".toList, "reset".toList,
     "help".toList, "quit".toList, "exit".toList]

/-- The test `process_line` makes on the operand tokens `args` of an
instruction with keyword `kw` before it executes it: every operand is present
and accepted by its parser. -/
def operands_ok (kw : List Char) (args : List (List Char)) : Prop :=
  if kw = "mul".toList then
    (parse_reg (args.get? 0) 0).1 ≠ 0 ∧ (parse_reg (args.get? 1) 0).1 ≠ 0
  else if kw = "rand".toList then
    (parse_reg (args.get? 0) 0).1 ≠ 0 ∧ (parse_u32 (args.get? 1) 0).1 ≠ 0 ∧
      (parse_u32 (args.get? 2) 0).1 ≠ 0
  else (parse_reg (args.get? 0) 0).1 ≠ 0 ∧ (parse_u32 (args.get? 1) 0).1 ≠ 0

instance (kw : List Char) (args : List (List Char)) : Decidable (operands_ok kw args) := by
  unfold operands_ok
  exact inferInstance

/-- The lines `run_script` hands to `process_line`, in order, for a stream of
at most `fuel` characters: the stream is read in pieces of at most 255
characters that end after a newline; a piece that is empty or starts with `#`
after its leading white space is left out, and the final newline of a piece is
dropped. -/
def script_lines : Nat → List Char → List (List Char)
  | 0, _ => []
  | fuel + 1, stream =>
    match fgets 256 stream with
    | none => []
    | some (buf, rest) =>
      if (cstr buf).dropWhile isspace = [] ∨
          ((cstr buf).dropWhile isspace).head? = some '#' then script_lines fuel rest
      else
        (if ((cstr buf).dropWhile isspace).getLast? = some '\n'
          then ((cstr buf).dropWhile isspace).dropLast
          else (cstr buf).dropWhile isspace) :: script_lines fuel rest

/-- Whether the first token of a line is the keyword of an instruction. -/
def is_instruction_line (line : List Char) : Bool :=
  match line_tokens line with
  | [] => false
  | kw :: _ => decide (kw ∈ instruction_keywords)

/-- Whether the first token of a line is `reset`. -/
def is_reset_line (line : List Char) : Bool :=
  match line_tokens line with
  | [] => false
  | kw :: _ => decide (kw = "reset".toList)

/-- The path a line asks `save_state` to write to: the second token of a line
whose first token is `save`. -/
def save_target (line : List Char) : Option (List Char) :=
  match line_tokens line with
  | kw :: path :: _ => if kw = "save".toList then some path else none
  | _ => none

/-- A line that is none of the commands `script`, `quit` and `exit` and whose
operands parse when it is an instruction. -/
def plain_valid_line (line : List Char) : Prop :=
  match line_tokens line with
  | [] => True
  | kw :: args =>
    kw ≠ "script".toList ∧ kw ≠ "quit".toList ∧ kw ≠ "exit".toList ∧
      (kw ∈ instruction_keywords → operands_ok kw args)

/-- The turn counter the lines of a script lead to from the counter `t`, line
by line: an instruction line adds 1 modulo `2^64`, a `reset` line sets the
counter to 0, any other line leaves it as it is. -/
def turns_by_lines (t : Nat) : List (List Char) → Nat
  | [] => t
  | line :: rest =>
    turns_by_lines
      (if is_reset_line line then 0
       else if is_instruction_line line then (t + 1) % 18446744073709551616
       else t) rest

instance (line : List Char) : Decidable (plain_valid_line line) := by
  unfold plain_valid_line
  split <;> exact inferInstance

/-- A session that starts from the reset bank with no file, no output yet and
a `rand()` that always returns 0; every path is its own canonical path and no
script is being replayed. -/
def fresh : Session :=
  { cpu := reset, files := fun _ => none, writable := fun _ => true,
    rnd := fun _ => 0, rnd_pos := 0, out := [], canon := fun p => p,
    open_scripts := [] }

/-! ## Sign lemmas for the two's-complement operators -/

theorem int_xor_neg_iff (x y : Int) : Int.xor x y < 0 ↔ ¬ (x < 0 ↔ y < 0) := by
  cases x <;> cases y <;> simp [Int.xor, Int.negSucc_lt_zero]
  omega

theorem int_land_neg_iff (x y : Int) : Int.land x y < 0 ↔ (x < 0 ∧ y < 0) := by
  cases x <;> cases y <;> simp [Int.land, Int.negSucc_lt_zero] <;> omega

theorem int_lnot_neg_iff (x : Int) : Int.lnot x < 0 ↔ ¬ (x < 0) := by
  cases x <;> simp [Int.lnot, Int.negSucc_lt_zero]

theorem toInt32_neg_iff (a : Nat) (ha : a < 4294967296) :
    toInt32 a < 0 ↔ 2147483648 ≤ a := by
  unfold toInt32 wrap32
  rw [Nat.mod_eq_of_lt ha]
  split <;> omega

theorem toInt32_range (a : Nat) : -2147483648 ≤ toInt32 a ∧ toInt32 a ≤ 2147483647 := by
  unfold toInt32 wrap32
  split <;> omega

theorem wrapInt64_of_range (z : Int) (h1 : -9223372036854775808 ≤ z)
    (h2 : z < 9223372036854775808) : wrapInt64 z = z := by
  unfold wrapInt64
  omega

theorem shift31_and_one (k : Nat) : (k >>> 31) &&& 1 = k / 2147483648 % 2 := by
  rw [Nat.and_one_is_mod, Nat.shiftRight_eq_div_pow]

/-! ## Decimal numerals and `strtol` -/

theorem digitChar_spec (d : Nat) (h : d < 10) :
    isdigit (Nat.digitChar d) = true ∧ (Nat.digitChar d).toNat - 48 = d := by
  interval_cases d <;> decide

theorem toDigitsCore_append (fuel : Nat) : ∀ (n : Nat) (ds : List Char),
    Nat.toDigitsCore 10 fuel n ds = Nat.toDigitsCore 10 fuel n [] ++ ds := by
  induction fuel with
  | zero => intro n ds; simp [Nat.toDigitsCore]
  | succ fuel ih =>
    intro n ds
    simp only [Nat.toDigitsCore]
    split
    · simp
    · rw [ih (n / 10) (Nat.digitChar (n % 10) :: ds), ih (n / 10) [Nat.digitChar (n % 10)]]
      simp

theorem digitsValue_append_single (l : List Char) (c : Char) :
    digitsValue (l ++ [c]) = 10 * digitsValue l + (c.toNat - 48) := by
  simp [digitsValue, List.foldl_append]

theorem toDigitsCore_spec (fuel : Nat) : ∀ n : Nat, n < fuel →
    (∀ c ∈ Nat.toDigitsCore 10 fuel n [], isdigit c = true) ∧
    Nat.toDigitsCore 10 fuel n [] ≠ [] ∧
    digitsValue (Nat.toDigitsCore 10 fuel n []) = n := by
  induction fuel with
  | zero => intro n h; omega
  | succ fuel ih =>
    intro n hn
    have hd := digitChar_spec (n % 10) (Nat.mod_lt _ (by decide))
    simp only [Nat.toDigitsCore]
    split
    · rename_i h0
      refine ⟨?_, by simp, ?_⟩
      · intro c hc
        simp only [List.mem_singleton] at hc
        rw [hc]; exact hd.1
      · simp only [digitsValue, List.foldl_cons, List.foldl_nil]
        rw [hd.2]; omega
    · rename_i h0
      have hlt : n / 10 < fuel := by omega
      obtain ⟨h1, h2, h3⟩ := ih (n / 10) hlt
      rw [toDigitsCore_append]
      refine ⟨?_, by simp, ?_⟩
      · intro c hc
        rcases List.mem_append.mp hc with hc | hc
        · exact h1 c hc
        · simp only [List.mem_singleton] at hc
          rw [hc]; exact hd.1
      · rw [digitsValue_append_single, h3, hd.2]; omega

theorem fmt_dec_spec (n : Nat) :
    (∀ c ∈ fmt_dec n, isdigit c = true) ∧ fmt_dec n ≠ [] ∧ digitsValue (fmt_dec n) = n :=
  toDigitsCore_spec (n + 1) n (Nat.lt_succ_self n)

theorem isdigit_not_space_sign (c : Char) (h : isdigit c = true) :
    isspace c = false ∧ c ≠ '-' ∧ c ≠ '+' := by
  simp only [isdigit, Bool.and_eq_true, decide_eq_true_eq] at h
  refine ⟨?_, ?_, ?_⟩
  · simp only [isspace, Bool.or_eq_false_iff, decide_eq_false_iff_not]
    refine ⟨⟨⟨⟨⟨?_, ?_⟩, ?_⟩, ?_⟩, ?_⟩, ?_⟩ <;>
      (intro hc; rw [hc] at h; revert h; decide)
  · intro hc; rw [hc] at h; revert h; decide
  · intro hc; rw [hc] at h; revert h; decide

/-- On a non-empty run of digits `strtol` converts the whole text and
saturates at `LONG_MAX`. -/
theorem strtol_digits (ds : List Char) (hne : ds ≠ [])
    (hd : ∀ c ∈ ds, isdigit c = true) :
    strtol ds = if (digitsValue ds : Int) > LONG_MAX then (LONG_MAX, [], true)
      else ((digitsValue ds : Int), [], false) := by
  obtain ⟨c, t, rfl⟩ := List.exists_cons_of_ne_nil hne
  obtain ⟨hs, hm, hp⟩ := isdigit_not_space_sign c (hd c (List.mem_cons_self c t))
  have h1 : (c :: t).dropWhile isspace = c :: t := by simp [List.dropWhile, hs]
  have h2 : splitSign (c :: t) = (false, c :: t) := by
    unfold splitSign
    split <;> simp_all
  have h3 : (c :: t).takeWhile isdigit = c :: t :=
    List.takeWhile_eq_self_iff.mpr hd
  have h4 : (c :: t).dropWhile isdigit = [] :=
    List.dropWhile_eq_nil_iff.mpr hd
  simp only [strtol, h1, h2, h3, h4]
  simp

/-- On a non-empty run of digits `strtoul` converts the whole text and
saturates at `ULONG_MAX`. -/
theorem strtoul_digits (ds : List Char) (hne : ds ≠ [])
    (hd : ∀ c ∈ ds, isdigit c = true) :
    strtoul ds = if digitsValue ds > ULONG_MAX then (ULONG_MAX, [], true)
      else (digitsValue ds, [], false) := by
  obtain ⟨c, t, rfl⟩ := List.exists_cons_of_ne_nil hne
  obtain ⟨hs, hm, hp⟩ := isdigit_not_space_sign c (hd c (List.mem_cons_self c t))
  have h1 : (c :: t).dropWhile isspace = c :: t := by simp [List.dropWhile, hs]
  have h2 : splitSign (c :: t) = (false, c :: t) := by
    unfold splitSign
    split <;> simp_all
  have h3 : (c :: t).takeWhile isdigit = c :: t :=
    List.takeWhile_eq_self_iff.mpr hd
  have h4 : (c :: t).dropWhile isdigit = [] :=
    List.dropWhile_eq_nil_iff.mpr hd
  simp only [strtoul, h1, h2, h3, h4]
  simp

theorem strtoul_fmt_dec (v : Nat) (hv : v < 4294967296) :
    wrap32 (strtoul (fmt_dec v)).1 = v := by
  obtain ⟨h1, h2, h3⟩ := fmt_dec_spec v
  rw [strtoul_digits (fmt_dec v) h2 h1, h3]
  have : ¬ v > ULONG_MAX := by unfold ULONG_MAX; omega
  rw [if_neg this]
  exact Nat.mod_eq_of_lt hv

theorem atoi_fmt_dec (v : Nat) (hv : v < 2147483648) : atoi (fmt_dec v) = (v : Int) := by
  obtain ⟨h1, h2, h3⟩ := fmt_dec_spec v
  unfold atoi
  rw [strtol_digits (fmt_dec v) h2 h1, h3]
  have : ¬ (v : Int) > LONG_MAX := by unfold LONG_MAX; omega
  rw [if_neg this]
  simp only
  omega

theorem fmt_dec_length (n e : Nat) (he : 0 < e) (h : n < 10 ^ e) :
    (fmt_dec n).length ≤ e :=
  Nat.toDigitsCore_length 10 (by decide) (n + 1) n e h he

theorem isdigit_plain (c : Char) (h : isdigit c = true) :
    c ≠ '=' ∧ c ≠ '\n' ∧ c ≠ '\x00' ∧ c ≠ '#' := by
  simp only [isdigit, Bool.and_eq_true, decide_eq_true_eq] at h
  refine ⟨?_, ?_, ?_, ?_⟩ <;> (intro hc; rw [hc] at h; revert h; decide)

/-! ## Arithmetic and flag engine -/

/-- C1: ADD on register `x` with immediate `k` leaves `r[x] = (a + k) mod 2^32`
and sets `C` to 1 exactly when the untruncated sum exceeds `2^32 - 1`, and to 0
otherwise. -/
theorem op_add_imm_result_and_carry (cpu : CPU) (x : Fin NUM_REGS) (k : Nat)
    (ha : cpu.r x < 4294967296) (hk : k < 4294967296) :
    (op_add_imm cpu x k).r x = (cpu.r x + k) % 4294967296 ∧
    ((op_add_imm cpu x k).flags.C = 1 ↔ cpu.r x + k > 4294967296 - 1) ∧
    ((op_add_imm cpu x k).flags.C = 0 ↔ ¬ (cpu.r x + k > 4294967296 - 1)) := by
  have hw : wrap64 (cpu.r x + k) = cpu.r x + k := by
    unfold wrap64
    exact Nat.mod_eq_of_lt (by omega)
  refine ⟨?_, ?_, ?_⟩
  · simp [op_add_imm, setReg, wrap32]
  · simp only [op_add_imm, update_flags_add, hw]
    split <;> omega
  · simp only [op_add_imm, update_flags_add, hw]
    split <;> omega

/-- C1 (witness): with `a = 4294967295` and `k = 1` the register becomes 0 and
`C = 1`. -/
theorem op_add_imm_result_and_carry_witness :
    (op_mov_imm reset 1 4294967295).r 1 = 4294967295 ∧
    (op_mov_imm reset 1 4294967295).r 1 < 4294967296 ∧ 1 < 4294967296 ∧
    (op_add_imm (op_mov_imm reset 1 4294967295) 1 1).r 1 = 0 ∧
    (op_add_imm (op_mov_imm reset 1 4294967295) 1 1).flags.C = 1 :=
  have h := op_add_imm_result_and_carry (op_mov_imm reset 1 4294967295) 1 1
    (by decide) (by decide)
  ⟨by decide, by decide, by decide, h.1.trans (by decide), h.2.1.mpr (by decide)⟩

/-- C2: `update_flags_add` sets `V` to 1 exactly when `a` and `b`, read as
signed 32-bit values, have the same sign and that sign differs from the sign
of the result read as a signed 32-bit value; otherwise `V = 0`. -/
theorem update_flags_add_overflow (f : Flags) (a b : Nat)
    (_ha : a < 4294967296) (_hb : b < 4294967296) :
    ((update_flags_add f a b (wrap32 (a + b))).V = 1 ↔
      ((toInt32 a < 0 ↔ toInt32 b < 0) ∧
        ¬ (toInt32 a < 0 ↔ toInt32 (wrap32 (a + b)) < 0))) ∧
    ((update_flags_add f a b (wrap32 (a + b))).V = 0 ↔
      ¬ ((toInt32 a < 0 ↔ toInt32 b < 0) ∧
        ¬ (toInt32 a < 0 ↔ toInt32 (wrap32 (a + b)) < 0))) := by
  simp only [update_flags_add, int_land_neg_iff, int_lnot_neg_iff, int_xor_neg_iff]
  by_cases hA : toInt32 a < 0 <;> by_cases hB : toInt32 b < 0 <;>
    by_cases hR : toInt32 (wrap32 (a + b)) < 0 <;> simp [hA, hB, hR]

/-- C2 (witness): `2^31 - 1` plus 1 overflows the signed range. -/
theorem update_flags_add_overflow_witness :
    (update_flags_add ⟨0, 0, 0, 0⟩ 2147483647 1 (wrap32 (2147483647 + 1))).V = 1 :=
  (update_flags_add_overflow ⟨0, 0, 0, 0⟩ 2147483647 1 (by decide) (by decide)).1.mpr
    (by decide)

/-- C3: SUB on register `x` with immediate `k` leaves `r[x] = (a - k) mod 2^32`
and sets `C` to 1 exactly when `a >= k`, and to 0 otherwise, whatever the sign
bit `N` of the result is. -/
theorem op_sub_imm_result_and_carry (cpu : CPU) (x : Fin NUM_REGS) (k : Nat)
    (_ha : cpu.r x < 4294967296) (_hk : k < 4294967296) :
    ((op_sub_imm cpu x k).r x : Int) = ((cpu.r x : Int) - (k : Int)) % 4294967296 ∧
    ((op_sub_imm cpu x k).flags.C = 1 ↔ cpu.r x ≥ k) ∧
    ((op_sub_imm cpu x k).flags.C = 0 ↔ ¬ (cpu.r x ≥ k)) := by
  refine ⟨?_, ?_, ?_⟩
  · simp only [op_sub_imm, setReg, if_true]
    exact Int.toNat_of_nonneg (Int.emod_nonneg _ (by decide))
  · simp only [op_sub_imm, update_flags_sub]
    split <;> omega
  · simp only [op_sub_imm, update_flags_sub]
    split <;> omega

/-- C3 (witness): `100 - 101` wraps to `2^32 - 1` with `C = 0`, and
`100 - 100` gives `C = 1`. -/
theorem op_sub_imm_result_and_carry_witness :
    ((op_sub_imm reset 0 101).r 0 : Int) = ((100 : Int) - 101) % 4294967296 ∧
    (op_sub_imm reset 0 101).flags.C = 0 ∧ (op_sub_imm reset 0 101).flags.N = 1 :=
  have h := op_sub_imm_result_and_carry reset 0 101 (by decide) (by decide)
  ⟨h.1, h.2.2.mpr (by decide), by decide⟩

/-- C4: `update_flags_sub` sets `V` to 1 exactly when `a` and `b` read as signed
32-bit values differ in sign and `a` and the result read as signed 32-bit
values differ in sign; otherwise `V = 0`. -/
theorem update_flags_sub_overflow (f : Flags) (a b : Nat)
    (_ha : a < 4294967296) (_hb : b < 4294967296) :
    ((update_flags_sub f a b (((a : Int) - (b : Int)) % 4294967296).toNat).V = 1 ↔
      (¬ (toInt32 a < 0 ↔ toInt32 b < 0) ∧
        ¬ (toInt32 a < 0 ↔ toInt32 (((a : Int) - (b : Int)) % 4294967296).toNat < 0))) ∧
    ((update_flags_sub f a b (((a : Int) - (b : Int)) % 4294967296).toNat).V = 0 ↔
      ¬ (¬ (toInt32 a < 0 ↔ toInt32 b < 0) ∧
        ¬ (toInt32 a < 0 ↔ toInt32 (((a : Int) - (b : Int)) % 4294967296).toNat < 0))) := by
  simp only [update_flags_sub, int_land_neg_iff, int_xor_neg_iff]
  by_cases hA : toInt32 a < 0 <;> by_cases hB : toInt32 b < 0 <;>
    by_cases hR : toInt32 (((a : Int) - (b : Int)) % 4294967296).toNat < 0 <;>
    simp [hA, hB, hR]

/-- C4 (witness): `-2^31` minus 1 overflows the signed range. -/
theorem update_flags_sub_overflow_witness :
    (update_flags_sub ⟨0, 0, 0, 0⟩ 2147483648 1
      ((((2147483648 : Nat) : Int) - ((1 : Nat) : Int)) % 4294967296).toNat).V = 1 :=
  (update_flags_sub_overflow ⟨0, 0, 0, 0⟩ 2147483648 1 (by decide) (by decide)).1.mpr
    (by decide)

/-- C5: MUL on registers `x` and `y` (possibly the same) leaves `r[x]` equal to
the low 32 bits of the full product `a * b` and sets `C` to 1 exactly when the
full product exceeds `2^32 - 1`, and to 0 otherwise. -/
theorem op_mul_reg_result_and_carry (cpu : CPU) (x y : Fin NUM_REGS)
    (ha : cpu.r x < 4294967296) (hb : cpu.r y < 4294967296) :
    (op_mul_reg cpu x y).r x = (cpu.r x * cpu.r y) % 4294967296 ∧
    ((op_mul_reg cpu x y).flags.C = 1 ↔ cpu.r x * cpu.r y > 4294967296 - 1) ∧
    ((op_mul_reg cpu x y).flags.C = 0 ↔ ¬ (cpu.r x * cpu.r y > 4294967296 - 1)) := by
  have hlt : cpu.r x * cpu.r y < 18446744073709551616 :=
    calc cpu.r x * cpu.r y
        ≤ 4294967295 * 4294967295 := Nat.mul_le_mul (by omega) (by omega)
      _ < 18446744073709551616 := by decide
  have hw : wrap64 (cpu.r x * cpu.r y) = cpu.r x * cpu.r y := by
    unfold wrap64
    exact Nat.mod_eq_of_lt hlt
  refine ⟨?_, ?_, ?_⟩
  · simp [op_mul_reg, setReg, wrap32]
  · simp only [op_mul_reg, update_flags_mul_didatic, hw]
    split <;> omega
  · simp only [op_mul_reg, update_flags_mul_didatic, hw]
    split <;> omega

/-- C5 (witness): squaring `r1 = 65536` (so `x = y`) gives 0 with `C = 1`. -/
theorem op_mul_reg_result_and_carry_witness :
    (op_mul_reg (op_mov_imm reset 1 65536) 1 1).r 1 = 0 ∧
    (op_mul_reg (op_mov_imm reset 1 65536) 1 1).flags.C = 1 :=
  have h := op_mul_reg_result_and_carry (op_mov_imm reset 1 65536) 1 1
    (by decide) (by decide)
  ⟨h.1.trans (by decide), h.2.1.mpr (by decide)⟩

/-- C6: `update_flags_mul_didatic` sets `V` to 1 exactly when the exact integer
product of the signed 32-bit readings of `a` and `b` lies outside
`[-2^31, 2^31 - 1]`; otherwise `V = 0`. -/
theorem update_flags_mul_didatic_overflow (f : Flags) (a b res : Nat)
    (_ha : a < 4294967296) (_hb : b < 4294967296) :
    ((update_flags_mul_didatic f a b res).V = 1 ↔
      ¬ (-2147483648 ≤ toInt32 a * toInt32 b ∧ toInt32 a * toInt32 b ≤ 2147483647)) ∧
    ((update_flags_mul_didatic f a b res).V = 0 ↔
      (-2147483648 ≤ toInt32 a * toInt32 b ∧ toInt32 a * toInt32 b ≤ 2147483647)) := by
  obtain ⟨a1, a2⟩ := toInt32_range a
  obtain ⟨b1, b2⟩ := toInt32_range b
  have hw : wrapInt64 (toInt32 a * toInt32 b) = toInt32 a * toInt32 b := by
    apply wrapInt64_of_range <;> nlinarith
  simp only [update_flags_mul_didatic, hw, INT32_MIN, INT32_MAX]
  constructor <;> split <;> omega

/-- C6 (witness): `65536 * 65536` does not fit, `(-1) * (-1)` does. -/
theorem update_flags_mul_didatic_overflow_witness :
    (update_flags_mul_didatic ⟨0, 0, 0, 0⟩ 65536 65536 0).V = 1 ∧
    (update_flags_mul_didatic ⟨0, 0, 0, 0⟩ 4294967295 4294967295 1).V = 0 :=
  ⟨(update_flags_mul_didatic_overflow ⟨0, 0, 0, 0⟩ 65536 65536 0
      (by decide) (by decide)).1.mpr (by decide),
   (update_flags_mul_didatic_overflow ⟨0, 0, 0, 0⟩ 4294967295 4294967295 1
      (by decide) (by decide)).2.mpr (by decide)⟩

/-- C7: MOV on register `x` with immediate `k` leaves `r[x] = k`, `N` = bit 31
of `k`, `Z = 1` exactly when `k = 0`, and `C = 0`, `V = 0`, whatever the prior
state and flags were. -/
theorem op_mov_imm_result_and_flags (cpu : CPU) (x : Fin NUM_REGS) (k : Nat)
    (_hk : k < 4294967296) :
    (op_mov_imm cpu x k).r x = k ∧
    (op_mov_imm cpu x k).flags.N = (if k.testBit 31 then 1 else 0) ∧
    ((op_mov_imm cpu x k).flags.Z = 1 ↔ k = 0) ∧
    ((op_mov_imm cpu x k).flags.Z = 0 ↔ k ≠ 0) ∧
    (op_mov_imm cpu x k).flags.C = 0 ∧
    (op_mov_imm cpu x k).flags.V = 0 := by
  refine ⟨by simp [op_mov_imm, setReg], ?_, ?_, ?_, rfl, rfl⟩
  · simp only [op_mov_imm, shift31_and_one, Nat.testBit_to_div_mod]
    have : k / 2147483648 % 2 < 2 := Nat.mod_lt _ (by decide)
    have h2 : (2 : Nat) ^ 31 = 2147483648 := by norm_num
    rw [h2]
    by_cases h : k / 2147483648 % 2 = 1
    · simp [h]
    · have h0 : k / 2147483648 % 2 = 0 := by omega
      simp [h0]
  · simp only [op_mov_imm]
    split <;> simp_all
  · simp only [op_mov_imm]
    split <;> simp_all

/-- C7 (witness): moving `2^31` over flags that were all set gives `N = 1`,
`Z = 0`, `C = 0`, `V = 0`. -/
theorem op_mov_imm_result_and_flags_witness :
    (op_mov_imm ⟨fun _ => 7, ⟨1, 1, 1, 1⟩, 5⟩ 3 2147483648).r 3 = 2147483648 ∧
    (op_mov_imm ⟨fun _ => 7, ⟨1, 1, 1, 1⟩, 5⟩ 3 2147483648).flags = ⟨1, 0, 0, 0⟩ :=
  have h := op_mov_imm_result_and_flags ⟨fun _ => 7, ⟨1, 1, 1, 1⟩, 5⟩ 3 2147483648
    (by decide)
  ⟨h.1, by decide⟩


/-! ## State persistence -/

theorem fgets_take_length (room : Nat) : ∀ s : List Char, s ≠ [] →
    (fgets_take (room + 1) s).2.length < s.length := by
  induction room with
  | zero =>
    intro s hs
    obtain ⟨c, t, rfl⟩ := List.exists_cons_of_ne_nil hs
    simp only [fgets_take]
    split <;> simp
  | succ room ih =>
    intro s hs
    obtain ⟨c, t, rfl⟩ := List.exists_cons_of_ne_nil hs
    rw [fgets_take]
    split
    · simp
    · by_cases ht : t = []
      · subst ht
        simp [fgets_take]
      · have := ih t ht
        simp only [List.length_cons]
        omega

/-- The loop of `load_state` does not depend on the fuel once the fuel covers
the length of the stream: the loop ends by reaching the end of the file. -/
theorem load_loop_fuel (fuel1 : Nat) : ∀ (fuel2 : Nat) (cpu : CPU) (stream : List Char),
    stream.length ≤ fuel1 → stream.length ≤ fuel2 →
    load_loop fuel1 cpu stream = load_loop fuel2 cpu stream := by
  induction fuel1 with
  | zero =>
    intro fuel2 cpu stream h1 _
    have hs : stream = [] := List.length_eq_zero.mp (by omega)
    subst hs
    cases fuel2 <;> simp [load_loop, fgets]
  | succ fuel1 ih =>
    intro fuel2 cpu stream h1 h2
    by_cases hs : stream = []
    · subst hs
      cases fuel2 <;> simp [load_loop, fgets]
    · cases fuel2 with
      | zero => exact absurd (List.length_eq_zero.mp (by omega)) hs
      | succ fuel2 =>
        have hlen : (fgets_take (128 - 1) stream).2.length < stream.length :=
          fgets_take_length 126 stream hs
        simp only [load_loop, fgets, hs, if_false]
        exact ih fuel2 _ _ (by omega) (by omega)

theorem load_line_turns (cpu : CPU) (line : List Char) :
    (load_line cpu line).turns = cpu.turns := by
  unfold load_line
  repeat' split
  all_goals rfl

theorem load_loop_turns (fuel : Nat) : ∀ (cpu : CPU) (stream : List Char),
    (load_loop fuel cpu stream).turns = cpu.turns := by
  induction fuel with
  | zero => intro cpu stream; rfl
  | succ fuel ih =>
    intro cpu stream
    simp only [load_loop]
    split
    · rfl
    · rw [ih, load_line_turns]

/-- Loading never changes the turn counter, whatever the file holds. -/
theorem load_state_turns (cpu : CPU) (file : Option (List Char)) :
    (load_state cpu file).2.turns = cpu.turns := by
  cases file with
  | none => rfl
  | some content => exact load_loop_turns _ _ _

/-- A line changes register `i` only when `sscanf` extracts a key that starts
with `r` and whose remainder `atoi` reads as `i`. -/
theorem load_line_reg_change (cpu : CPU) (line : List Char) (i : Fin NUM_REGS)
    (h : (load_line cpu line).r i ≠ cpu.r i) :
    ∃ key val, sscanf_key_val line = some (key, val) ∧ key.head? = some 'r' ∧
      atoi key.tail = (i.val : Int) := by
  unfold load_line at h
  split at h
  · exact absurd rfl h
  · split at h
    · exact absurd rfl h
    · rename_i key val hsc
      refine ⟨key, val, hsc, ?_⟩
      split at h
      · rename_i hr
        refine ⟨hr, ?_⟩
        split at h
        · rename_i hidx
          by_cases hi : (⟨(atoi key.tail).toNat, by omega⟩ : Fin NUM_REGS) = i
          · have := congrArg Fin.val hi
            simp only at this
            omega
          · simp only [setReg] at h
            rw [if_neg (fun e => hi e.symm)] at h
            exact absurd rfl h
        · exact absurd rfl h
      · repeat' split at h
        all_goals exact absurd rfl h

/-- A line changes a flag only when `sscanf` extracts that flag's name as the
key. -/
theorem load_line_flag_change (cpu : CPU) (line : List Char) :
    ((load_line cpu line).flags.N ≠ cpu.flags.N →
      ∃ val, sscanf_key_val line = some ("N".toList, val)) ∧
    ((load_line cpu line).flags.Z ≠ cpu.flags.Z →
      ∃ val, sscanf_key_val line = some ("Z".toList, val)) ∧
    ((load_line cpu line).flags.C ≠ cpu.flags.C →
      ∃ val, sscanf_key_val line = some ("C".toList, val)) ∧
    ((load_line cpu line).flags.V ≠ cpu.flags.V →
      ∃ val, sscanf_key_val line = some ("V".toList, val)) := by
  unfold load_line
  split
  · simp
  · split
    · simp
    · rename_i key val hsc
      split
      · split <;> simp
      · split
        · rename_i hk
          subst hk
          exact ⟨fun _ => ⟨val, hsc⟩, by simp, by simp, by simp⟩
        · split
          · rename_i hk
            subst hk
            exact ⟨by simp, fun _ => ⟨val, hsc⟩, by simp, by simp⟩
          · split
            · rename_i hk
              subst hk
              exact ⟨by simp, by simp, fun _ => ⟨val, hsc⟩, by simp⟩
            · split
              · rename_i hk
                subst hk
                exact ⟨by simp, by simp, by simp, fun _ => ⟨val, hsc⟩⟩
              · simp

/-- What `sscanf` extracts from a line made of a key without `=`, an `=`, a
value without white space, and then a white-space character. -/
theorem sscanf_key_val_of (key val : List Char) (sp : Char) (tail : List Char)
    (hk1 : key ≠ []) (hk2 : ∀ c ∈ key, c ≠ '=') (hk3 : key.length ≤ 15)
    (hv1 : val ≠ []) (hv2 : ∀ c ∈ val, isspace c = false) (hv3 : val.length ≤ 63)
    (hsp : isspace sp = true) :
    sscanf_key_val (key ++ '=' :: (val ++ sp :: tail)) = some (key, val) := by
  have hkey : ((key ++ '=' :: (val ++ sp :: tail)).takeWhile (fun c => c != '=')).take 15
      = key := by
    rw [List.takeWhile_append_of_pos (by simpa using hk2)]
    simp [List.take_of_length_le hk3]
  obtain ⟨v0, vt, rfl⟩ := List.exists_cons_of_ne_nil hv1
  have hv0 : isspace v0 = false := hv2 v0 (List.mem_cons_self _ _)
  have hdrop : (v0 :: vt ++ sp :: tail).dropWhile isspace = v0 :: vt ++ sp :: tail := by
    simp [List.dropWhile, hv0]
  have hval : (((v0 :: vt ++ sp :: tail).dropWhile isspace).takeWhile
      (fun c => !isspace c)).take 63 = v0 :: vt := by
    rw [hdrop, List.takeWhile_append_of_pos (by simpa using hv2)]
    simp [hsp, List.take_of_length_le hv3]
  unfold sscanf_key_val
  simp only [hkey, hk1, if_false, List.drop_left, hval]
  simp

theorem fmt_dec_not_space (n : Nat) : ∀ c ∈ fmt_dec n, isspace c = false :=
  fun c hc => (isdigit_not_space_sign c ((fmt_dec_spec n).1 c hc)).1

/-- A line `r<i>=<v>` written by `save_state` sets register `i` to `v`. -/
theorem load_line_reg (cpu : CPU) (i : Fin NUM_REGS) (v : Nat) (hv : v < 4294967296)
    (tail : List Char) :
    load_line cpu (('r' :: fmt_dec i.val) ++ '=' :: (fmt_dec v ++ '\n' :: tail)) =
      { cpu with r := setReg cpu.r i v } := by
  have hi : i.val < 8 := i.isLt
  have hsc := sscanf_key_val_of ('r' :: fmt_dec i.val) (fmt_dec v) '\n' tail
    (by simp)
    (by
      intro c hc
      rcases List.mem_cons.mp hc with h | h
      · rw [h]; decide
      · exact (isdigit_plain c ((fmt_dec_spec _).1 c h)).1)
    (by
      have := fmt_dec_length i.val 1 (by decide) (by omega)
      simp only [List.length_cons]; omega)
    (fmt_dec_spec v).2.1 (fmt_dec_not_space v)
    (by
      have := fmt_dec_length v 10 (by decide) (by omega)
      omega)
    (by decide)
  have hat : atoi (fmt_dec i.val) = (i.val : Int) := atoi_fmt_dec _ (by omega)
  have hcond : 0 ≤ atoi (fmt_dec i.val) ∧ atoi (fmt_dec i.val) < NUM_REGS := by
    rw [hat]; constructor <;> omega
  have hfin : (⟨(atoi (fmt_dec i.val)).toNat, by omega⟩ : Fin NUM_REGS) = i := by
    apply Fin.ext
    simp only [hat]
    exact Int.toNat_ofNat _
  unfold load_line
  rw [hsc]
  simp only [List.cons_append, List.head?_cons, List.tail_cons]
  rw [if_pos True.intro, dif_pos hcond, hfin, strtoul_fmt_dec v hv]
  exact if_neg (by decide)

/-- The flags line written by `save_state` sets `N` and nothing else: the text
after the first value is not read. -/
theorem load_line_flags (cpu : CPU) (n : Nat) (hn : n < 256) (tail : List Char) :
    load_line cpu ("N".toList ++ '=' :: (fmt_dec n ++ ' ' :: tail)) =
      { cpu with flags := { cpu.flags with N := n } } := by
  have hsc := sscanf_key_val_of "N".toList (fmt_dec n) ' ' tail
    (by decide) (by decide) (by decide)
    (fmt_dec_spec n).2.1 (fmt_dec_not_space n)
    (by
      have := fmt_dec_length n 3 (by decide) (by omega)
      omega)
    (by decide)
  have hat : atoi (fmt_dec n) = (n : Int) := atoi_fmt_dec _ (by omega)
  have hval : (atoi (fmt_dec n) % 256).toNat = n := by
    rw [hat]; omega
  unfold load_line
  rw [hsc]
  simp only [String.toList, List.cons_append, List.nil_append, List.head?_cons]
  rw [if_pos True.intro, hval, if_neg (by decide), if_neg (by decide)]

/-- One iteration of the loop of `load_state` on a stream that starts with a
line shorter than the buffer. -/
theorem load_state_line (cpu : CPU) (l rest : List Char)
    (hnl : ∀ c ∈ l, c ≠ '\n') (hnul : ∀ c ∈ l, c ≠ '\x00') (hlen : l.length < 127) :
    (load_state cpu (some (l ++ '\n' :: rest))).2 =
      (load_state (load_line cpu (l ++ ['\n'])) (some rest)).2 := by
  have htake : ∀ (l : List Char) (room : Nat), (∀ c ∈ l, c ≠ '\n') → l.length < room →
      fgets_take room (l ++ '\n' :: rest) = (l ++ ['\n'], rest) := by
    intro l
    induction l with
    | nil =>
      intro room _ hroom
      obtain ⟨k, rfl⟩ := Nat.exists_eq_succ_of_ne_zero (by omega : room ≠ 0)
      simp [fgets_take]
    | cons c t ih =>
      intro room hc hroom
      obtain ⟨k, rfl⟩ := Nat.exists_eq_succ_of_ne_zero (by omega : room ≠ 0)
      have hcn : c ≠ '\n' := hc c (List.mem_cons_self _ _)
      have := ih k (fun x hx => hc x (List.mem_cons_of_mem _ hx))
        (by simp only [List.length_cons] at hroom; omega)
      simp [fgets_take, hcn, this]
  have hcstr : cstr (l ++ ['\n']) = l ++ ['\n'] := by
    unfold cstr
    apply List.takeWhile_eq_self_iff.mpr
    intro c hc
    rcases List.mem_append.mp hc with h | h
    · simpa using hnul c h
    · simp only [List.mem_singleton] at h
      rw [h]; decide
  have hfg : fgets 128 (l ++ '\n' :: rest) = some (l ++ ['\n'], rest) := by
    unfold fgets
    rw [if_neg (by simp)]
    exact congrArg some (htake l 127 hnl hlen)
  have hL : (l ++ '\n' :: rest).length = (l.length + rest.length) + 1 := by
    simp only [List.length_append, List.length_cons]; omega
  simp only [load_state]
  rw [hL]
  simp only [load_loop, hfg, hcstr]
  exact load_loop_fuel _ _ _ _ (by omega) (le_refl _)

theorem load_state_nil (cpu : CPU) : (load_state cpu (some [])).2 = cpu := rfl

theorem load_state_header (cpu : CPU) (rest : List Char) :
    (load_state cpu (some ("# ARM Invaders save".toList ++ '\n' :: rest))).2 =
      (load_state cpu (some rest)).2 := by
  rw [load_state_line cpu _ rest (by decide) (by decide) (by decide)]
  have : load_line cpu ("# ARM Invaders save".toList ++ ['\n']) = cpu := by
    unfold load_line
    exact if_pos (Or.inl rfl)
  rw [this]

theorem load_state_regline (cpu : CPU) (i : Fin NUM_REGS) (v : Nat) (hv : v < 4294967296)
    (rest : List Char) :
    (load_state cpu
      (some ((('r' :: fmt_dec i.val) ++ '=' :: fmt_dec v) ++ '\n' :: rest))).2 =
      (load_state { cpu with r := setReg cpu.r i v } (some rest)).2 := by
  have hi : i.val < 8 := i.isLt
  have hmem : ∀ c ∈ ('r' :: fmt_dec i.val) ++ '=' :: fmt_dec v,
      c = 'r' ∨ c = '=' ∨ isdigit c = true := by
    intro c hc
    simp only [List.cons_append, List.mem_cons, List.mem_append] at hc
    rcases hc with h | h | h | h
    · exact Or.inl h
    · exact Or.inr (Or.inr ((fmt_dec_spec _).1 c h))
    · exact Or.inr (Or.inl h)
    · exact Or.inr (Or.inr ((fmt_dec_spec _).1 c h))
  have h1 := fmt_dec_length i.val 1 (by decide) (by omega)
  have h2 := fmt_dec_length v 10 (by decide) (by omega)
  rw [load_state_line cpu _ rest]
  · have hline : (('r' :: fmt_dec i.val) ++ '=' :: fmt_dec v) ++ ['\n'] =
        ('r' :: fmt_dec i.val) ++ '=' :: (fmt_dec v ++ '\n' :: []) := by simp
    rw [hline, load_line_reg cpu i v hv]
  · intro c hc
    rcases hmem c hc with h | h | h
    · rw [h]; decide
    · rw [h]; decide
    · exact (isdigit_plain c h).2.1
  · intro c hc
    rcases hmem c hc with h | h | h
    · rw [h]; decide
    · rw [h]; decide
    · exact (isdigit_plain c h).2.2.1
  · simp only [List.cons_append, List.length_cons, List.length_append]
    omega

theorem load_state_flagline (cpu : CPU) (n z c v : Nat)
    (hn : n < 256) (hz : z < 256) (hc : c < 256) (hv : v < 256) (rest : List Char) :
    (load_state cpu (some (("N".toList ++ '=' :: (fmt_dec n ++ ' ' ::
      ("Z=".toList ++ fmt_dec z ++ " C=".toList ++ fmt_dec c ++ " V=".toList ++ fmt_dec v)))
        ++ '\n' :: rest))).2 =
      (load_state { cpu with flags := { cpu.flags with N := n } } (some rest)).2 := by
  have hmem : ∀ x ∈ "N".toList ++ '=' :: (fmt_dec n ++ ' ' ::
      ("Z=".toList ++ fmt_dec z ++ " C=".toList ++ fmt_dec c ++ " V=".toList ++ fmt_dec v)),
      x ∈ "NZCV= ".toList ∨ isdigit x = true := by
    intro x hx
    simp only [String.toList, List.cons_append, List.nil_append, List.mem_cons,
      List.mem_append, List.append_assoc] at hx
    have hd := fun k (h : x ∈ fmt_dec k) => (fmt_dec_spec k).1 x h
    rcases hx with h | h | h | h | h | h | h | h | h | h | h | h | h | h | h <;>
      first
      | exact Or.inr (hd _ h)
      | (left; rw [h]; decide)
  have hall : ∀ x ∈ "NZCV= ".toList, x ≠ '\n' ∧ x ≠ '\x00' := by decide
  have h1 := fmt_dec_length n 3 (by decide) (by omega)
  have h2 := fmt_dec_length z 3 (by decide) (by omega)
  have h3 := fmt_dec_length c 3 (by decide) (by omega)
  have h4 := fmt_dec_length v 3 (by decide) (by omega)
  rw [load_state_line cpu _ rest]
  · have hline : ("N".toList ++ '=' :: (fmt_dec n ++ ' ' ::
        ("Z=".toList ++ fmt_dec z ++ " C=".toList ++ fmt_dec c ++ " V=".toList ++ fmt_dec v)))
          ++ ['\n'] =
        "N".toList ++ '=' :: (fmt_dec n ++ ' ' ::
        ("Z=".toList ++ fmt_dec z ++ " C=".toList ++ fmt_dec c ++ " V=".toList ++ fmt_dec v
          ++ ['\n'])) := by simp
    rw [hline, load_line_flags cpu n hn]
  · intro x hx
    rcases hmem x hx with h | h
    · exact (hall x h).1
    · exact (isdigit_plain x h).2.1
  · intro x hx
    rcases hmem x hx with h | h
    · exact (hall x h).2
    · exact (isdigit_plain x h).2.2.1
  · simp only [String.toList, List.cons_append, List.nil_append, List.length_cons,
      List.length_append, List.append_assoc, List.length_nil]
    omega

/-- The text of `save_state` as ten lines. -/
theorem save_state_lines (s : CPU) :
    save_state s =
      "# ARM Invaders save".toList ++ '\n' ::
      ((('r' :: fmt_dec (0 : Fin NUM_REGS).val) ++ '=' :: fmt_dec (s.r 0)) ++ '\n' ::
      ((('r' :: fmt_dec (1 : Fin NUM_REGS).val) ++ '=' :: fmt_dec (s.r 1)) ++ '\n' ::
      ((('r' :: fmt_dec (2 : Fin NUM_REGS).val) ++ '=' :: fmt_dec (s.r 2)) ++ '\n' ::
      ((('r' :: fmt_dec (3 : Fin NUM_REGS).val) ++ '=' :: fmt_dec (s.r 3)) ++ '\n' ::
      ((('r' :: fmt_dec (4 : Fin NUM_REGS).val) ++ '=' :: fmt_dec (s.r 4)) ++ '\n' ::
      ((('r' :: fmt_dec (5 : Fin NUM_REGS).val) ++ '=' :: fmt_dec (s.r 5)) ++ '\n' ::
      ((('r' :: fmt_dec (6 : Fin NUM_REGS).val) ++ '=' :: fmt_dec (s.r 6)) ++ '\n' ::
      ((('r' :: fmt_dec (7 : Fin NUM_REGS).val) ++ '=' :: fmt_dec (s.r 7)) ++ '\n' ::
      (("N".toList ++ '=' :: (fmt_dec s.flags.N ++ ' ' ::
        ("Z=".toList ++ fmt_dec s.flags.Z ++ " C=".toList ++ fmt_dec s.flags.C ++
          " V=".toList ++ fmt_dec s.flags.V))) ++ '\n' :: []))))))))) := by
  have hfin : List.finRange NUM_REGS = [0, 1, 2, 3, 4, 5, 6, 7] := by decide
  simp [save_state, hfin]

/-- Loading the text saved from bank `s` into any bank `t` succeeds, restores
the eight registers and the flag `N` of `s`, and leaves `Z`, `C`, `V` and the
turn counter of `t` as they were. -/
theorem load_save_state (s t : CPU) (hr : ∀ i, s.r i < 4294967296)
    (hn : s.flags.N < 256) (hz : s.flags.Z < 256) (hc : s.flags.C < 256)
    (hv : s.flags.V < 256) :
    (load_state t (some (save_state s))).1 = 1 ∧
    (∀ i, (load_state t (some (save_state s))).2.r i = s.r i) ∧
    (load_state t (some (save_state s))).2.flags =
      { N := s.flags.N, Z := t.flags.Z, C := t.flags.C, V := t.flags.V } ∧
    (load_state t (some (save_state s))).2.turns = t.turns := by
  refine ⟨rfl, ?_, ?_, load_state_turns _ _⟩
  · intro i
    rw [save_state_lines, load_state_header,
      load_state_regline _ 0 _ (hr 0), load_state_regline _ 1 _ (hr 1),
      load_state_regline _ 2 _ (hr 2), load_state_regline _ 3 _ (hr 3),
      load_state_regline _ 4 _ (hr 4), load_state_regline _ 5 _ (hr 5),
      load_state_regline _ 6 _ (hr 6), load_state_regline _ 7 _ (hr 7),
      load_state_flagline _ _ _ _ _ hn hz hc hv, load_state_nil]
    fin_cases i <;> rfl
  · rw [save_state_lines, load_state_header,
      load_state_regline _ 0 _ (hr 0), load_state_regline _ 1 _ (hr 1),
      load_state_regline _ 2 _ (hr 2), load_state_regline _ 3 _ (hr 3),
      load_state_regline _ 4 _ (hr 4), load_state_regline _ 5 _ (hr 5),
      load_state_regline _ 6 _ (hr 6), load_state_regline _ 7 _ (hr 7),
      load_state_flagline _ _ _ _ _ hn hz hc hv, load_state_nil]

/-- C8: the bank reached from reset by `sub r0 100` has `Z = 1` and `C = 1`;
saving it and loading the text into a freshly reset bank restores the eight
registers and `N` but leaves `Z = 0` and `C = 0`, because the four flags are
written on one line and only the first `key=value` pair of a line is read. -/
theorem save_load_loses_flags :
    (op_sub_imm reset 0 100).flags = ⟨0, 1, 1, 0⟩ ∧
    save_state (op_sub_imm reset 0 100) =
      ("# ARM Invaders save\nr0=0\nr1=100\nr2=100\nr3=100\nr4=100\nr5=100\n" ++
       "r6=100\nr7=100\nN=0 Z=1 C=1 V=0\n").toList ∧
    (load_state reset (some (save_state (op_sub_imm reset 0 100)))).1 = 1 ∧
    (∀ i, (load_state reset (some (save_state (op_sub_imm reset 0 100)))).2.r i =
      (op_sub_imm reset 0 100).r i) ∧
    (load_state reset (some (save_state (op_sub_imm reset 0 100)))).2.flags =
      ⟨0, 0, 0, 0⟩ := by
  decide

/-- C9: loading a file whose only line has the key `rabbit` into a freshly
reset bank overwrites register 0, since any key that starts with `r` is taken
for a register key and `atoi` reads the missing index as 0. -/
theorem load_state_unknown_key_writes_r0 :
    reset.r 0 = 100 ∧
    sscanf_key_val "rabbit=5\n".toList = some ("rabbit".toList, "5".toList) ∧
    (load_state reset (some "rabbit=5\n".toList)).2.r 0 = 5 := by
  decide

/-! ## Register-reference parsing -/

/-- C10: for every index `i` in `0..7` written as a decimal numeral, `parse_reg`
succeeds on the bare numeral, on `r` followed by it and on `R` followed by it,
each time yielding `i`; it rejects `r` followed by the numeral of any `n >= 8`
and rejects `x`, leaving its output untouched. -/
theorem parse_reg_bare_and_prefixed (out : Int) :
    (∀ i : Nat, i < NUM_REGS →
      parse_reg (some (fmt_dec i)) out = (1, (i : Int)) ∧
      parse_reg (some ('r' :: fmt_dec i)) out = (1, (i : Int)) ∧
      parse_reg (some ('R' :: fmt_dec i)) out = (1, (i : Int))) ∧
    (∀ n : Nat, NUM_REGS ≤ n → parse_reg (some ('r' :: fmt_dec n)) out = (0, out)) ∧
    parse_reg (some "x".toList) out = (0, out) := by
  refine ⟨?_, ?_, rfl⟩
  · intro i hi
    interval_cases i <;> exact ⟨rfl, rfl, rfl⟩
  · intro n hn
    have hn8 : 8 ≤ n := hn
    obtain ⟨h1, h2, h3⟩ := fmt_dec_spec n
    have hs := strtol_digits (fmt_dec n) h2 h1
    rw [h3] at hs
    simp only [parse_reg, if_true, true_or]
    by_cases hbig : (n : Int) > LONG_MAX
    · rw [if_pos hbig] at hs
      rw [hs]
      simp [LONG_MAX]
    · rw [if_neg hbig] at hs
      rw [hs]
      have : ¬ ((n : Int) < 8) := by omega
      simp [this]

/-- C10 (witness): `3`, `r3` and `R3` all give 3, and `r8` and `x` are rejected
with the output left as it was. -/
theorem parse_reg_bare_and_prefixed_witness :
    parse_reg (some "3".toList) 9 = (1, 3) ∧
    parse_reg (some "r3".toList) 9 = (1, 3) ∧
    parse_reg (some "R3".toList) 9 = (1, 3) ∧
    parse_reg (some "r8".toList) 9 = (0, 9) ∧
    parse_reg (some "x".toList) 9 = (0, 9) :=
  have h := parse_reg_bare_and_prefixed 9
  ⟨(h.1 3 (by decide)).1, (h.1 3 (by decide)).2.1, (h.1 3 (by decide)).2.2,
   h.2.1 8 (by decide), h.2.2⟩

/-! ## Signed overflow of ADD and SUB -/

theorem toInt32_cases (a : Nat) (ha : a < 4294967296) :
    (a < 2147483648 ∧ toInt32 a = (a : Int)) ∨
    (2147483648 ≤ a ∧ toInt32 a = (a : Int) - 4294967296) := by
  unfold toInt32 wrap32
  rw [Nat.mod_eq_of_lt ha]
  split
  · left; constructor <;> omega
  · right; constructor <;> omega

theorem flag_eq_one_iff (P : Prop) [Decidable P] : (if P then 1 else 0 : Nat) = 1 ↔ P := by
  split <;> simp [*]

/-- The sign test of ADD against the exact signed sum. -/
theorem add_overflow_rule (a b : Nat) (ha : a < 4294967296) (hb : b < 4294967296) :
    ((¬ ¬ (toInt32 a < 0 ↔ toInt32 b < 0)) ∧
        ¬ (toInt32 a < 0 ↔ toInt32 (wrap32 (a + b)) < 0)) ↔
      ¬ (-2147483648 ≤ toInt32 a + toInt32 b ∧ toInt32 a + toInt32 b ≤ 2147483647) := by
  have hr : wrap32 (a + b) < 4294967296 := Nat.mod_lt _ (by decide)
  have hrv : wrap32 (a + b) = (a + b) % 4294967296 := rfl
  rcases toInt32_cases a ha with ⟨h1, e1⟩ | ⟨h1, e1⟩ <;>
  rcases toInt32_cases b hb with ⟨h2, e2⟩ | ⟨h2, e2⟩ <;>
  rcases toInt32_cases _ hr with ⟨h3, e3⟩ | ⟨h3, e3⟩ <;>
  · rw [e1, e2, e3]
    have s1 : ((a : Int) < 0) = False := by simp
    have s2 : ((b : Int) < 0) = False := by simp
    have s3 : ((((wrap32 (a + b) : Nat) : Int)) < 0) = False := by simp
    have t1 : ((a : Int) - 4294967296 < 0) = True := by simp; omega
    have t2 : ((b : Int) - 4294967296 < 0) = True := by simp; omega
    have t3 : (((wrap32 (a + b) : Nat) : Int) - 4294967296 < 0) = True := by simp; omega
    simp only [s1, s2, s3, t1, t2, t3, iff_self, not_true_eq_false, not_false_eq_true,
      and_true, and_false, true_and, false_and, iff_false, false_iff, true_iff, iff_true,
      not_not]
    omega

/-- The sign test of SUB against the exact signed difference. -/
theorem sub_overflow_rule (a b : Nat) (ha : a < 4294967296) (hb : b < 4294967296) :
    (¬ (toInt32 a < 0 ↔ toInt32 b < 0) ∧
        ¬ (toInt32 a < 0 ↔ toInt32 (((a : Int) - (b : Int)) % 4294967296).toNat < 0)) ↔
      ¬ (-2147483648 ≤ toInt32 a - toInt32 b ∧ toInt32 a - toInt32 b ≤ 2147483647) := by
  have hsub : ((((a : Int) - (b : Int)) % 4294967296).toNat : Int) =
      ((a : Int) - (b : Int)) % 4294967296 :=
    Int.toNat_of_nonneg (Int.emod_nonneg _ (by decide))
  generalize (((a : Int) - (b : Int)) % 4294967296).toNat = m at hsub
  have hr : m < 4294967296 := by omega
  rcases toInt32_cases a ha with ⟨h1, e1⟩ | ⟨h1, e1⟩ <;>
  rcases toInt32_cases b hb with ⟨h2, e2⟩ | ⟨h2, e2⟩ <;>
  rcases toInt32_cases m hr with ⟨h3, e3⟩ | ⟨h3, e3⟩ <;>
  · rw [e1, e2, e3]
    have s1 : ((a : Int) < 0) = False := by simp
    have s2 : ((b : Int) < 0) = False := by simp
    have s3 : ((m : Int) < 0) = False := by simp
    have t1 : ((a : Int) - 4294967296 < 0) = True := by simp; omega
    have t2 : ((b : Int) - 4294967296 < 0) = True := by simp; omega
    have t3 : ((m : Int) - 4294967296 < 0) = True := by simp; omega
    simp only [s1, s2, s3, t1, t2, t3, iff_self, not_true_eq_false, not_false_eq_true,
      and_true, and_false, true_and, false_and, iff_false, false_iff, true_iff, iff_true,
      not_not]
    omega

/-- C19: the `V` flag of ADD is 1 exactly when the exact sum of the signed
readings of `a` and `b` lies outside `[-2^31, 2^31 - 1]`, and the `V` flag of SUB
is 1 exactly when their exact difference lies outside that range. -/
theorem add_sub_overflow_exact (f : Flags) (a b : Nat)
    (ha : a < 4294967296) (hb : b < 4294967296) :
    ((update_flags_add f a b (wrap32 (a + b))).V = 1 ↔
      ¬ (-2147483648 ≤ toInt32 a + toInt32 b ∧ toInt32 a + toInt32 b ≤ 2147483647)) ∧
    ((update_flags_sub f a b (((a : Int) - (b : Int)) % 4294967296).toNat).V = 1 ↔
      ¬ (-2147483648 ≤ toInt32 a - toInt32 b ∧ toInt32 a - toInt32 b ≤ 2147483647)) := by
  constructor
  · simp only [update_flags_add, int_land_neg_iff, int_lnot_neg_iff, int_xor_neg_iff,
      flag_eq_one_iff]
    exact add_overflow_rule a b ha hb
  · simp only [update_flags_sub, int_land_neg_iff, int_xor_neg_iff, flag_eq_one_iff]
    exact sub_overflow_rule a b ha hb

/-- C19 (witness): `2^31 - 1` plus 1 and `-2^31` minus 1 both overflow. -/
theorem add_sub_overflow_exact_witness :
    (2147483647 : Nat) < 4294967296 ∧ (1 : Nat) < 4294967296 ∧
    (update_flags_add ⟨0, 0, 0, 0⟩ 2147483647 1 (wrap32 (2147483647 + 1))).V = 1 ∧
    (update_flags_sub ⟨0, 0, 0, 0⟩ 2147483648 1
      ((((2147483648 : Nat) : Int) - ((1 : Nat) : Int)) % 4294967296).toNat).V = 1 :=
  ⟨by decide, by decide,
   (add_sub_overflow_exact ⟨0, 0, 0, 0⟩ 2147483647 1 (by decide) (by decide)).1.mpr
     (by decide),
   (add_sub_overflow_exact ⟨0, 0, 0, 0⟩ 2147483648 1 (by decide) (by decide)).2.mpr
     (by decide)⟩

/-! ## Random numbers -/

theorem urand_span (a b : Nat) (ha : a < 4294967296) (hb : b < 4294967296) :
    wrap64 (wrap64 ((if a > b then a else b) - (if a > b then b else a)) + 1) =
      (if a > b then a else b) - (if a > b then b else a) + 1 := by
  unfold wrap64
  split <;> omega

/-- C15: `urand_range a b` returns a value between `min a b` and `max a b`,
without wraparound even when the span is `2^32`, and returns `a` when
`a = b`. -/
theorem urand_range_bounds (a b r1 r2 : Nat)
    (ha : a < 4294967296) (hb : b < 4294967296)
    (_h1 : r1 ≤ RAND_MAX) (_h2 : r2 ≤ RAND_MAX) :
    min a b ≤ urand_range a b r1 r2 ∧ urand_range a b r1 r2 ≤ max a b ∧
    (a = b → urand_range a b r1 r2 = a) := by
  simp only [urand_range, urand_span a b ha hb]
  generalize Nat.xor (wrap64 (r1 <<< 32)) r2 = r
  have hmod : r % ((if a > b then a else b) - (if a > b then b else a) + 1) <
      (if a > b then a else b) - (if a > b then b else a) + 1 := Nat.mod_lt _ (by omega)
  generalize r % ((if a > b then a else b) - (if a > b then b else a) + 1) = m at hmod
  unfold wrap32
  split_ifs at hmod ⊢ <;> omega

/-- C15 (witness): on the full range `0 .. 2^32 - 1` the result stays in
range, and on the range `7 .. 7` it is 7. -/
theorem urand_range_bounds_witness :
    (0 : Nat) < 4294967296 ∧ (4294967295 : Nat) < 4294967296 ∧
    (5 : Nat) ≤ RAND_MAX ∧ (2147483647 : Nat) ≤ RAND_MAX ∧
    urand_range 0 4294967295 5 2147483647 ≤ max 0 4294967295 ∧
    urand_range 7 7 5 2147483647 = 7 :=
  ⟨by decide, by decide, by decide, by decide,
   (urand_range_bounds 0 4294967295 5 2147483647 (by decide) (by decide)
     (by decide) (by decide)).2.1,
   (urand_range_bounds 7 7 5 2147483647 (by decide) (by decide)
     (by decide) (by decide)).2.2 rfl⟩

/-- On the full range the result of `urand_range` is the second `rand()` value:
the shifted first value has no bit below bit 32. -/
theorem urand_range_full (r1 r2 : Nat) (_h1 : r1 ≤ RAND_MAX) (h2 : r2 ≤ RAND_MAX) :
    urand_range 0 4294967295 r1 r2 = r2 := by
  have hr2 : r2 < 2 ^ 32 := by unfold RAND_MAX at h2; omega
  have hbits : (Nat.xor (wrap64 (r1 <<< 32)) r2) % 2 ^ 32 = r2 := by
    apply Nat.eq_of_testBit_eq
    intro i
    have hx : Nat.xor (wrap64 (r1 <<< 32)) r2 = (wrap64 (r1 <<< 32)) ^^^ r2 := rfl
    have hw : wrap64 (r1 <<< 32) = (r1 <<< 32) % 2 ^ 64 := rfl
    rw [hx, hw, Nat.testBit_mod_two_pow, Nat.testBit_xor, Nat.testBit_mod_two_pow,
      Nat.testBit_shiftLeft]
    by_cases hi : i < 32
    · have : ¬ (i ≥ 32) := by omega
      simp [hi, this]
    · have hle : 2 ^ 32 ≤ 2 ^ i := Nat.pow_le_pow_right (by decide) (by omega)
      have : r2.testBit i = false := Nat.testBit_lt_two_pow (by omega)
      simp [hi, this]
  have h32 : (2 : Nat) ^ 32 = 4294967296 := by norm_num
  rw [h32] at hbits hr2
  simp only [urand_range, urand_span 0 4294967295 (by decide) (by decide)]
  simp only [gt_iff_lt, Nat.not_lt_zero, if_false, Nat.sub_zero, Nat.zero_add]
  have h4 : 4294967295 + 1 = 4294967296 := rfl
  rw [h4, hbits]
  simp [wrap32, Nat.mod_eq_of_lt hr2]

/-- C16: on the full range `0 .. 2^32 - 1` the largest `rand()` results give
`2^31 - 1`, and no pair of `rand()` results makes `urand_range` return `2^31`,
a value of the interval. -/
theorem urand_range_misses_upper_half :
    urand_range 0 4294967295 RAND_MAX RAND_MAX = 2147483647 ∧
    ¬ ∃ r1 r2 : Nat, r1 ≤ RAND_MAX ∧ r2 ≤ RAND_MAX ∧
      urand_range 0 4294967295 r1 r2 = 2147483648 := by
  refine ⟨urand_range_full _ _ (le_refl _) (le_refl _), ?_⟩
  rintro ⟨r1, r2, h1, h2, h⟩
  rw [urand_range_full r1 r2 h1 h2] at h
  unfold RAND_MAX at h2
  omega

/-! ## Operand parsing in the interpreter -/

/-- C11: the token `r`, which carries no index, is accepted by `parse_reg` as
register 0, and the line `add r 5` executes ADD on register 0 instead of
printing the usage hint. -/
theorem parse_reg_accepts_bare_prefix :
    parse_reg (some "r".toList) 9 = (1, 0) ∧
    (process_line 0 fresh "add r 5".toList).map
      (fun p => (p.1, p.2.cpu.r 0, p.2.cpu.turns, p.2.out)) =
      some (1, 105, 1, [Event.asm, Event.animate 6]) := by
  decide

/-- C20: `parse_u32` accepts `4294967296` with the value 0, `-1` with the
value `2^32 - 1` and the empty token with the value 0, and the line
`mov r1 4294967296` sets register 1 to 0. -/
theorem parse_u32_wraps :
    parse_u32 (some "4294967296".toList) 7 = (1, 0) ∧
    parse_u32 (some "-1".toList) 7 = (1, 4294967295) ∧
    parse_u32 (some []) 7 = (1, 0) ∧
    (process_line 0 fresh "mov r1 4294967296".toList).map
      (fun p => (p.1, p.2.cpu.r 1, p.2.cpu.turns, p.2.out)) =
      some (1, 0, 1, [Event.asm, Event.animate 6, Event.explosion]) := by
  decide

/-! ## Command interpreter -/

theorem process_line_eq_dispatch (depth : Nat) :
    ∃ script, process_line depth = dispatch script := by
  cases depth with
  | zero => exact ⟨_, rfl⟩
  | succ d => exact ⟨_, rfl⟩

/-- A successful `parse_reg` leaves an index in `0..7` in its output. -/
theorem parse_reg_range (tok : Option (List Char)) (out : Int)
    (h : (parse_reg tok out).1 ≠ 0) :
    0 ≤ (parse_reg tok out).2 ∧ (parse_reg tok out).2 < 8 := by
  rcases tok with _ | (_ | ⟨c, t⟩)
  · simp [parse_reg] at h
  · simp [parse_reg] at h
  · simp only [parse_reg] at h ⊢
    generalize (if c = 'r' ∨ c = 'R' then t else c :: t) = tok1 at h ⊢
    split
    · rename_i hc
      exact ⟨hc.2.1, hc.2.2⟩
    · rename_i hc
      exfalso
      apply h
      split
      · rename_i h2
        exact absurd h2 hc
      · rfl

theorem op_add_imm_frame (cpu : CPU) (x : Fin NUM_REGS) (k : Nat) :
    (op_add_imm cpu x k).turns = wrap64 (cpu.turns + 1) ∧
    ∀ j, j ≠ x → (op_add_imm cpu x k).r j = cpu.r j :=
  ⟨rfl, fun j hj => by simp [op_add_imm, setReg, hj]⟩

theorem op_sub_imm_frame (cpu : CPU) (x : Fin NUM_REGS) (k : Nat) :
    (op_sub_imm cpu x k).turns = wrap64 (cpu.turns + 1) ∧
    ∀ j, j ≠ x → (op_sub_imm cpu x k).r j = cpu.r j :=
  ⟨rfl, fun j hj => by simp [op_sub_imm, setReg, hj]⟩

theorem op_mul_reg_frame (cpu : CPU) (x y : Fin NUM_REGS) :
    (op_mul_reg cpu x y).turns = wrap64 (cpu.turns + 1) ∧
    ∀ j, j ≠ x → (op_mul_reg cpu x y).r j = cpu.r j :=
  ⟨rfl, fun j hj => by simp [op_mul_reg, setReg, hj]⟩

theorem op_mov_imm_frame (cpu : CPU) (x : Fin NUM_REGS) (k : Nat) :
    (op_mov_imm cpu x k).turns = wrap64 (cpu.turns + 1) ∧
    ∀ j, j ≠ x → (op_mov_imm cpu x k).r j = cpu.r j :=
  ⟨rfl, fun j hj => by simp [op_mov_imm, setReg, hj]⟩

/-- What `process_line` does on an instruction line whose operands parse: it
returns 1, and the bank is the one the instruction produces from the parsed
operands; files are untouched and the output grows by the trace of the
instruction. -/
theorem dispatch_instruction (script : Session → List Char → Option (Int × Session))
    (s : Session) (line kw : List Char) (args : List (List Char))
    (htok : line_tokens line = kw :: args) (hkw : kw ∈ instruction_keywords)
    (hok : operands_ok kw args) :
    ∃ s1, dispatch script s line = some (1, s1) ∧
      s1.cpu.turns = wrap64 (s.cpu.turns + 1) ∧
      (∀ j, j ≠ reg_index (parse_reg (args.get? 0) 0).2 → s1.cpu.r j = s.cpu.r j) ∧
      s1.files = s.files ∧
      s1.out = s.out ++ exec_events s1.cpu (reg_index (parse_reg (args.get? 0) 0).2) ∧
      s1.canon = s.canon ∧ s1.open_scripts = s.open_scripts := by
  simp only [instruction_keywords, List.mem_cons, List.mem_singleton, List.not_mem_nil,
    or_false] at hkw
  unfold operands_ok at hok
  rcases hkw with rfl | rfl | rfl | rfl | rfl
  · rw [if_neg (by decide), if_neg (by decide)] at hok
    refine ⟨executed s (op_add_imm s.cpu (reg_index (parse_reg (args.get? 0) 0).2) (parse_u32 (args.get? 1) 0).2) (reg_index (parse_reg (args.get? 0) 0).2),
      ?_, (op_add_imm_frame _ _ _).1, (op_add_imm_frame _ _ _).2, rfl, rfl, rfl, rfl⟩
    simp only [dispatch, htok]
    rw [if_pos True.intro, if_pos hok]
  · rw [if_neg (by decide), if_neg (by decide)] at hok
    refine ⟨executed s (op_sub_imm s.cpu (reg_index (parse_reg (args.get? 0) 0).2) (parse_u32 (args.get? 1) 0).2) (reg_index (parse_reg (args.get? 0) 0).2),
      ?_, (op_sub_imm_frame _ _ _).1, (op_sub_imm_frame _ _ _).2, rfl, rfl, rfl, rfl⟩
    simp only [dispatch, htok]
    rw [if_neg (by decide), if_pos True.intro, if_pos hok]
  · rw [if_pos rfl] at hok
    refine ⟨executed s (op_mul_reg s.cpu (reg_index (parse_reg (args.get? 0) 0).2)
      (reg_index (parse_reg (args.get? 1) 0).2)) (reg_index (parse_reg (args.get? 0) 0).2),
      ?_, (op_mul_reg_frame _ _ _).1, (op_mul_reg_frame _ _ _).2, rfl, rfl, rfl, rfl⟩
    simp only [dispatch, htok]
    rw [if_neg (by decide), if_neg (by decide), if_pos True.intro, if_pos hok]
  · rw [if_neg (by decide), if_neg (by decide)] at hok
    refine ⟨executed s (op_mov_imm s.cpu (reg_index (parse_reg (args.get? 0) 0).2) (parse_u32 (args.get? 1) 0).2) (reg_index (parse_reg (args.get? 0) 0).2),
      ?_, (op_mov_imm_frame _ _ _).1, (op_mov_imm_frame _ _ _).2, rfl, rfl, rfl, rfl⟩
    simp only [dispatch, htok]
    rw [if_neg (by decide), if_neg (by decide), if_neg (by decide), if_pos True.intro, if_pos hok]
  · rw [if_neg (by decide), if_pos rfl] at hok
    refine ⟨executed { s with rnd_pos := s.rnd_pos + 2 } (op_mov_imm s.cpu (reg_index (parse_reg (args.get? 0) 0).2)
      (urand_range (parse_u32 (args.get? 1) 0).2 (parse_u32 (args.get? 2) 0).2
        (s.rnd s.rnd_pos) (s.rnd (s.rnd_pos + 1)))) (reg_index (parse_reg (args.get? 0) 0).2),
      ?_, (op_mov_imm_frame _ _ _).1, (op_mov_imm_frame _ _ _).2, rfl, rfl, rfl, rfl⟩
    simp only [dispatch, htok]
    rw [if_neg (by decide), if_neg (by decide), if_neg (by decide), if_neg (by decide),
      if_pos True.intro, if_pos hok]

theorem dispatch_sub (script : Session → List Char → Option (Int × Session))
    (s : Session) (line : List Char) (args : List (List Char))
    (htok : line_tokens line = "sub".toList :: args)
    (hok : (parse_reg (args.get? 0) 0).1 ≠ 0 ∧ (parse_u32 (args.get? 1) 0).1 ≠ 0) :
    dispatch script s line =
      some (1, executed s
        (op_sub_imm s.cpu (reg_index (parse_reg (args.get? 0) 0).2) (parse_u32 (args.get? 1) 0).2)
        (reg_index (parse_reg (args.get? 0) 0).2)) := by
  simp only [dispatch, htok]
  rw [if_neg (by decide), if_pos True.intro, if_pos hok]

/-- On an instruction line with a missing or rejected operand `process_line`
prints the usage hint of the instruction and changes nothing else. -/
theorem dispatch_usage (script : Session → List Char → Option (Int × Session))
    (s : Session) (line kw : List Char) (args : List (List Char))
    (htok : line_tokens line = kw :: args) (hkw : kw ∈ instruction_keywords)
    (hbad : ¬ operands_ok kw args) :
    ∃ e, e ∈ [Event.usage_add, Event.usage_sub, Event.usage_mul, Event.usage_mov,
        Event.usage_rand] ∧
      dispatch script s line = some (1, say s e) := by
  simp only [instruction_keywords, List.mem_cons, List.mem_singleton, List.not_mem_nil,
    or_false] at hkw
  unfold operands_ok at hbad
  rcases hkw with rfl | rfl | rfl | rfl | rfl
  · rw [if_neg (by decide), if_neg (by decide)] at hbad
    refine ⟨Event.usage_add, by decide, ?_⟩
    simp only [dispatch, htok]
    rw [if_pos True.intro, if_neg hbad]
  · rw [if_neg (by decide), if_neg (by decide)] at hbad
    refine ⟨Event.usage_sub, by decide, ?_⟩
    simp only [dispatch, htok]
    rw [if_neg (by decide), if_pos True.intro, if_neg hbad]
  · rw [if_pos rfl] at hbad
    refine ⟨Event.usage_mul, by decide, ?_⟩
    simp only [dispatch, htok]
    rw [if_neg (by decide), if_neg (by decide), if_pos True.intro, if_neg hbad]
  · rw [if_neg (by decide), if_neg (by decide)] at hbad
    refine ⟨Event.usage_mov, by decide, ?_⟩
    simp only [dispatch, htok]
    rw [if_neg (by decide), if_neg (by decide), if_neg (by decide), if_pos True.intro,
      if_neg hbad]
  · rw [if_neg (by decide), if_pos rfl] at hbad
    refine ⟨Event.usage_rand, by decide, ?_⟩
    simp only [dispatch, htok]
    rw [if_neg (by decide), if_neg (by decide), if_neg (by decide), if_neg (by decide),
      if_pos True.intro, if_neg hbad]

/-- On a line whose first token is none of the keywords `process_line` prints
the message for an unrecognized command and changes nothing else. -/
theorem dispatch_unrecognized (script : Session → List Char → Option (Int × Session))
    (s : Session) (line kw : List Char) (args : List (List Char))
    (htok : line_tokens line = kw :: args) (hkw : kw ∉ keywords) :
    dispatch script s line = some (1, say s Event.unrecognized) := by
  simp only [keywords, instruction_keywords, List.mem_append, List.mem_cons,
    List.mem_singleton, List.not_mem_nil, or_false, not_or] at hkw
  obtain ⟨⟨h1, h2, h3, h4, h5⟩, h6, h7, h8, h9, h10, h11, h12, h13⟩ := hkw
  simp only [dispatch, htok]
  rw [if_neg h1, if_neg h2, if_neg h3, if_neg h4, if_neg h5, if_neg h6, if_neg h7,
    if_neg h8, if_neg h9, if_neg h10, if_neg h11, if_neg (not_or.mpr ⟨h12, h13⟩)]

/-- C12 (counterexample): from a bank whose turn counter is `2^64 - 1`, the
line `add r0 1` leaves the turn counter 0, which is not the counter before
plus 1. -/
theorem turn_counter_wraps :
    (process_line 0 { fresh with cpu := { reset with turns := 18446744073709551615 } }
        "add r0 1".toList).map (fun p => (p.1, p.2.cpu.turns)) = some (1, 0) ∧
    (0 : Nat) ≠ 18446744073709551615 + 1 := by
  decide

/-- C12: an add, sub, mul, mov or rand line whose operands parse, with
destination `x`, makes `process_line` return 1, leaves every register other
than `r[x]` unchanged and advances the 64-bit turn counter once: the counter
after is the counter before plus 1 modulo `2^64`, hence exactly plus 1 when the
counter before is below `2^64 - 1`. -/
theorem instruction_turn_and_frame (depth : Nat) (s : Session) (line kw : List Char)
    (args : List (List Char))
    (htok : line_tokens line = kw :: args) (hkw : kw ∈ instruction_keywords)
    (hok : operands_ok kw args) :
    ∃ s1, process_line depth s line = some (1, s1) ∧
      s1.cpu.turns = (s.cpu.turns + 1) % 18446744073709551616 ∧
      (s.cpu.turns < 18446744073709551615 → s1.cpu.turns = s.cpu.turns + 1) ∧
      (∀ j, j ≠ reg_index (parse_reg (args.get? 0) 0).2 → s1.cpu.r j = s.cpu.r j) := by
  obtain ⟨script, hpl⟩ := process_line_eq_dispatch depth
  obtain ⟨s1, h1, h2, h3, _, _⟩ := dispatch_instruction script s line kw args htok hkw hok
  refine ⟨s1, by rw [hpl]; exact h1, h2, ?_, h3⟩
  intro hlt
  rw [h2]
  unfold wrap64
  exact Nat.mod_eq_of_lt (by omega)

/-- C12 (witness): the line `mul r2 r3` on the reset session. -/
theorem instruction_turn_and_frame_witness :
    line_tokens "mul r2 r3".toList = "mul".toList :: ["r2".toList, "r3".toList] ∧
    "mul".toList ∈ instruction_keywords ∧
    operands_ok "mul".toList ["r2".toList, "r3".toList] ∧
    ∃ s1, process_line 0 fresh "mul r2 r3".toList = some (1, s1) ∧
      s1.cpu.turns = (fresh.cpu.turns + 1) % 18446744073709551616 ∧
      (fresh.cpu.turns < 18446744073709551615 → s1.cpu.turns = fresh.cpu.turns + 1) ∧
      (∀ j, j ≠ reg_index (parse_reg (["r2".toList, "r3".toList].get? 0) 0).2 →
        s1.cpu.r j = fresh.cpu.r j) :=
  ⟨by decide, by decide, by decide,
   instruction_turn_and_frame 0 fresh "mul r2 r3".toList "mul".toList
     ["r2".toList, "r3".toList] (by decide) (by decide) (by decide)⟩

/-- C14 (counterexample): the line `add r0 5 junk` has one operand too many,
yet `process_line` executes ADD on register 0: the register and the turn
counter change and no usage hint is printed. -/
theorem extra_operand_executes :
    line_tokens "add r0 5 junk".toList =
      ["add".toList, "r0".toList, "5".toList, "junk".toList] ∧
    (process_line 0 fresh "add r0 5 junk".toList).map
      (fun p => (p.1, p.2.cpu.r 0, p.2.cpu.turns, p.2.out)) =
      some (1, 105, 1, [Event.asm, Event.animate 6]) ∧
    fresh.cpu.r 0 = 100 ∧ fresh.cpu.turns = 0 := by
  decide

/-- C14: a line whose first token is none of the keywords, or an add, sub,
mul, mov or rand line with an operand that is missing or rejected by its
parser, makes `process_line` return 1 and print one message (the usage hint of
the instruction, or the message for an unrecognized command) and leaves the
registers, the flags, the turn counter and the files unchanged. -/
theorem usage_error_leaves_state (depth : Nat) (s : Session) (line kw : List Char)
    (args : List (List Char))
    (htok : line_tokens line = kw :: args)
    (h : kw ∉ keywords ∨ (kw ∈ instruction_keywords ∧ ¬ operands_ok kw args)) :
    ∃ s1 e, process_line depth s line = some (1, s1) ∧
      s1.cpu = s.cpu ∧ s1.files = s.files ∧ s1.out = s.out ++ [e] ∧
      e ∈ [Event.usage_add, Event.usage_sub, Event.usage_mul, Event.usage_mov,
        Event.usage_rand, Event.unrecognized] := by
  obtain ⟨script, hpl⟩ := process_line_eq_dispatch depth
  rcases h with h | ⟨h1, h2⟩
  · refine ⟨say s Event.unrecognized, Event.unrecognized, ?_, rfl, rfl, rfl, by decide⟩
    rw [hpl]
    exact dispatch_unrecognized script s line kw args htok h
  · obtain ⟨e, he, hd⟩ := dispatch_usage script s line kw args htok h1 h2
    refine ⟨say s e, e, by rw [hpl]; exact hd, rfl, rfl, rfl, ?_⟩
    simp only [List.mem_cons, List.mem_singleton, List.not_mem_nil, or_false] at he ⊢
    rcases he with h | h | h | h | h <;> simp [h]

/-- C14 (witness): `fly r0` has an unrecognized keyword, `add r9 1` a rejected
register, `add r0` a missing operand. -/
theorem usage_error_leaves_state_witness :
    (∃ s1 e, process_line 0 fresh "fly r0".toList = some (1, s1) ∧
      s1.cpu = fresh.cpu ∧ s1.files = fresh.files ∧ s1.out = fresh.out ++ [e] ∧
      e ∈ [Event.usage_add, Event.usage_sub, Event.usage_mul, Event.usage_mov,
        Event.usage_rand, Event.unrecognized]) ∧
    (∃ s1 e, process_line 0 fresh "add r9 1".toList = some (1, s1) ∧
      s1.cpu = fresh.cpu ∧ s1.files = fresh.files ∧ s1.out = fresh.out ++ [e] ∧
      e ∈ [Event.usage_add, Event.usage_sub, Event.usage_mul, Event.usage_mov,
        Event.usage_rand, Event.unrecognized]) ∧
    (∃ s1 e, process_line 0 fresh "add r0".toList = some (1, s1) ∧
      s1.cpu = fresh.cpu ∧ s1.files = fresh.files ∧ s1.out = fresh.out ++ [e] ∧
      e ∈ [Event.usage_add, Event.usage_sub, Event.usage_mul, Event.usage_mov,
        Event.usage_rand, Event.unrecognized]) :=
  ⟨usage_error_leaves_state 0 fresh "fly r0".toList "fly".toList ["r0".toList]
     (by decide) (Or.inl (by decide)),
   usage_error_leaves_state 0 fresh "add r9 1".toList "add".toList
     ["r9".toList, "1".toList] (by decide) (Or.inr ⟨by decide, by decide⟩),
   usage_error_leaves_state 0 fresh "add r0".toList "add".toList ["r0".toList]
     (by decide) (Or.inr ⟨by decide, by decide⟩)⟩

/-- C17: from the reset bank, the line `sub <x> 100`, with the register `x`
in `0..7` written bare or with the prefix `r`, makes `process_line` return 1
and yields `r[x] = 0`, flags `N=0, Z=1, C=1, V=0`, turn counter 1, every other
register still 100, and the explosion after the trace and the animation. -/
theorem sub_100_depletes (depth : Nat) (s : Session) (hs : s.cpu = reset)
    (x : Fin NUM_REGS) (pre : List Char) (hpre : pre ∈ [[], ['r']]) :
    ∃ s1, process_line depth s
        ("sub ".toList ++ (pre ++ fmt_dec x.val) ++ " 100".toList) = some (1, s1) ∧
      s1.cpu.r x = 0 ∧ s1.cpu.flags = ⟨0, 1, 1, 0⟩ ∧ s1.cpu.turns = 1 ∧
      (∀ j, j ≠ x → s1.cpu.r j = 100) ∧
      s1.out = s.out ++ [Event.asm, Event.animate 6, Event.explosion] := by
  have key : ∀ x : Fin NUM_REGS, ∀ pre ∈ [[], ['r']],
      line_tokens ("sub ".toList ++ (pre ++ fmt_dec x.val) ++ " 100".toList) =
        "sub".toList :: [pre ++ fmt_dec x.val, "100".toList] ∧
      (parse_reg (some (pre ++ fmt_dec x.val)) 0).1 ≠ 0 ∧
      (parse_u32 (some "100".toList) 0).1 ≠ 0 ∧
      reg_index (parse_reg (some (pre ++ fmt_dec x.val)) 0).2 = x ∧
      (parse_u32 (some "100".toList) 0).2 = 100 := by decide
  have hop : ∀ x : Fin NUM_REGS,
      (op_sub_imm reset x 100).r x = 0 ∧ (op_sub_imm reset x 100).flags = ⟨0, 1, 1, 0⟩ ∧
      (op_sub_imm reset x 100).turns = 1 ∧
      (∀ j, j ≠ x → (op_sub_imm reset x 100).r j = 100) ∧
      exec_events (op_sub_imm reset x 100) x =
        [Event.asm, Event.animate 6, Event.explosion] := by decide
  obtain ⟨k1, k2, k3, k4, k5⟩ := key x pre hpre
  obtain ⟨script, hpl⟩ := process_line_eq_dispatch depth
  have hd := dispatch_sub script s _ _ k1 ⟨k2, k3⟩
  simp only [List.get?_cons_zero, List.get?_cons_succ] at hd
  rw [k4, k5, hs] at hd
  obtain ⟨o1, o2, o3, o4, o5⟩ := hop x
  refine ⟨_, by rw [hpl]; exact hd, o1, o2, o3, o4, ?_⟩
  simp only [executed, o5]

/-- C17 (witness): the line `sub r0 100` on the reset session. -/
theorem sub_100_depletes_witness :
    fresh.cpu = reset ∧ (['r'] : List Char) ∈ [[], ['r']] ∧
    ∃ s1, process_line 0 fresh "sub r0 100".toList = some (1, s1) ∧
      s1.cpu.r 0 = 0 ∧ s1.cpu.flags = ⟨0, 1, 1, 0⟩ ∧ s1.cpu.turns = 1 ∧
      (∀ j, j ≠ 0 → s1.cpu.r j = 100) ∧
      s1.out = fresh.out ++ [Event.asm, Event.animate 6, Event.explosion] :=
  ⟨rfl, by decide, sub_100_depletes 0 fresh rfl 0 ['r'] (by decide)⟩

/-! ## Script replay -/

/-- C18: a script made of the lines `quit` and `add r0 1` is replayed to its
end by the `script` command, which executes the ADD after the `quit` and
returns 1, so the session goes on; the same two lines typed at the prompt end
the session at `quit`, before the ADD. -/
theorem quit_in_script_is_ignored :
    (process_line 1
      { fresh with files := fun p =>
          if p = "s.txt".toList then some "quit\nadd r0 1\n".toList else none }
      "script s.txt".toList).map (fun p => (p.1, p.2.cpu.r 0, p.2.cpu.turns)) =
      some (1, 101, 1) ∧
    (main_loop 1 15 fresh "quit\nadd r0 1\n".toList).map
      (fun s => (s.cpu.r 0, s.cpu.turns)) = some (100, 0) := by
  decide

/-- C13 (counterexample): replaying the script made of the lines `add r0 1`
and `reset`, both valid, from a turn counter of 0 leaves the counter 0, although
the script has one instruction line. -/
theorem reset_in_script_zeroes_turns :
    ((script_lines 15 "add r0 1\nreset\n".toList).filter is_instruction_line).length = 1 ∧
    fresh.cpu.turns = 0 ∧
    (run_script (process_line 0)
      { fresh with files := fun p =>
          if p = "s.txt".toList then some "add r0 1\nreset\n".toList else none }
      "s.txt".toList).map (fun p => (p.1, p.2.cpu.turns)) = some (1, 0) := by
  decide

/-- A `reset` line sets the turn counter to 0. -/
theorem dispatch_reset (script : Session → List Char → Option (Int × Session))
    (s : Session) (line : List Char) (args : List (List Char))
    (htok : line_tokens line = "reset".toList :: args) :
    ∃ s1, dispatch script s line = some (1, s1) ∧ s1.cpu.turns = 0 ∧
      s1.canon = s.canon ∧ s1.open_scripts = s.open_scripts := by
  refine ⟨say { s with cpu := reset, rnd_pos := s.rnd_pos + 2 * NUM_REGS }
    (Event.animate 2), ?_, rfl, rfl, rfl⟩
  simp only [dispatch, htok]
  rw [if_neg (by decide), if_neg (by decide), if_neg (by decide), if_neg (by decide),
    if_neg (by decide), if_neg (by decide), if_neg (by decide), if_neg (by decide),
    if_neg (by decide), if_pos True.intro]

/-- A `save` line that does not write to a script file being replayed leaves
the turn counter as it was. -/
theorem dispatch_save_turns (script : Session → List Char → Option (Int × Session))
    (s : Session) (line : List Char) (args : List (List Char))
    (htok : line_tokens line = "save".toList :: args)
    (hsave : ∀ p, args.get? 0 = some p → s.canon p ∉ s.open_scripts) :
    ∃ r s1, dispatch script s line = some (r, s1) ∧ s1.cpu.turns = s.cpu.turns ∧
      s1.canon = s.canon ∧ s1.open_scripts = s.open_scripts := by
  simp only [dispatch, htok]
  rw [if_neg (by decide), if_neg (by decide), if_neg (by decide), if_neg (by decide),
    if_neg (by decide), if_pos True.intro]
  cases hg : args.get? 0 with
  | none => exact ⟨_, _, rfl, rfl, rfl, rfl⟩
  | some path =>
    simp only
    by_cases hw : s.writable path = true
    · rw [if_pos hw, if_neg (hsave path hg)]
      exact ⟨_, _, rfl, rfl, rfl, rfl⟩
    · rw [if_neg hw]
      exact ⟨_, _, rfl, rfl, rfl, rfl⟩

/-- A line whose keyword is none of the instructions, `save`, `reset` and
`script` leaves the turn counter as it was. -/
theorem dispatch_other_turns (script : Session → List Char → Option (Int × Session))
    (s : Session) (line kw : List Char) (args : List (List Char))
    (htok : line_tokens line = kw :: args) (h1 : kw ∉ instruction_keywords)
    (h0 : kw ≠ "save".toList) (h2 : kw ≠ "reset".toList) (h3 : kw ≠ "script".toList) :
    ∃ r s1, dispatch script s line = some (r, s1) ∧ s1.cpu.turns = s.cpu.turns ∧
      s1.canon = s.canon ∧ s1.open_scripts = s.open_scripts := by
  simp only [instruction_keywords, List.mem_cons, List.mem_singleton, List.not_mem_nil,
    or_false, not_or] at h1
  obtain ⟨k1, k2, k3, k4, k5⟩ := h1
  simp only [dispatch, htok]
  rw [if_neg k1, if_neg k2, if_neg k3, if_neg k4, if_neg k5, if_neg h0, if_neg h3,
    if_neg h2]
  repeat' split
  all_goals first
    | exact ⟨_, _, rfl, rfl, rfl, rfl⟩
    | exact ⟨_, _, rfl, load_state_turns _ _, rfl, rfl⟩

/-- The effect of one plain valid line on the turn counter: it advances once
modulo `2^64` on an instruction line, becomes 0 on a `reset` line and stays as it
was on any other line; the line returns, and leaves the open script files as
they were. -/
theorem process_line_turns (depth : Nat) (s : Session) (line : List Char)
    (hv : plain_valid_line line)
    (hsave : ∀ p, save_target line = some p → s.canon p ∉ s.open_scripts) :
    ∃ r s1, process_line depth s line = some (r, s1) ∧
      s1.cpu.turns =
        (if is_reset_line line then 0
         else if is_instruction_line line then (s.cpu.turns + 1) % 18446744073709551616
         else s.cpu.turns) ∧
      s1.canon = s.canon ∧ s1.open_scripts = s.open_scripts := by
  obtain ⟨script, hpl⟩ := process_line_eq_dispatch depth
  rw [hpl]
  unfold plain_valid_line at hv
  unfold save_target at hsave
  unfold is_instruction_line is_reset_line
  cases htok : line_tokens line with
  | nil =>
    refine ⟨1, s, ?_, by simp, rfl, rfl⟩
    simp only [dispatch, htok]
  | cons kw args =>
    rw [htok] at hv
    obtain ⟨h3, _, _, h4⟩ := hv
    by_cases hk : kw ∈ instruction_keywords
    · obtain ⟨s1, e1, e2, _, _, _, e3, e4⟩ :=
        dispatch_instruction script s line kw args htok hk (h4 hk)
      have hr : kw ≠ "reset".toList := by
        intro h
        rw [h] at hk
        revert hk
        decide
      refine ⟨1, s1, e1, ?_, e3, e4⟩
      simp only [hk, hr, decide_True, decide_False, if_true, Bool.false_eq_true, if_false]
      exact e2
    · by_cases hr : kw = "reset".toList
      · subst hr
        obtain ⟨s1, e1, e2, e3, e4⟩ := dispatch_reset script s line args htok
        refine ⟨1, s1, e1, ?_, e3, e4⟩
        simp only [decide_True, if_true]
        exact e2
      · by_cases hsv : kw = "save".toList
        · subst hsv
          have hs2 : ∀ p, args.get? 0 = some p → s.canon p ∉ s.open_scripts := by
            intro p hp
            apply hsave p
            rw [htok]
            cases args with
            | nil => simp at hp
            | cons a rest =>
              simp only [List.get?_cons_zero, Option.some.injEq] at hp
              simp [hp]
          obtain ⟨r, s1, e1, e2, e3, e4⟩ := dispatch_save_turns script s line args htok hs2
          refine ⟨r, s1, e1, ?_, e3, e4⟩
          simp only [hk, hr, decide_False, Bool.false_eq_true, if_false]
          exact e2
        · obtain ⟨r, s1, e1, e2, e3, e4⟩ :=
            dispatch_other_turns script s line kw args htok hk hsv hr h3
          refine ⟨r, s1, e1, ?_, e3, e4⟩
          simp only [hk, hr, decide_False, Bool.false_eq_true, if_false]
          exact e2

/-- The loop of `run_script` on plain valid lines that do not write to a script
file being replayed ends, and the turn counter it leaves is the one the lines
lead to one by one. -/
theorem script_loop_turns (depth : Nat) (fuel : Nat) :
    ∀ (s : Session) (stream : List Char), stream.length ≤ fuel →
      (∀ line ∈ script_lines fuel stream, plain_valid_line line ∧
        ∀ p, save_target line = some p → s.canon p ∉ s.open_scripts) →
      ∃ s1, script_loop (process_line depth) fuel s stream = some s1 ∧
        s1.cpu.turns = turns_by_lines s.cpu.turns (script_lines fuel stream) ∧
        s1.canon = s.canon ∧ s1.open_scripts = s.open_scripts := by
  induction fuel with
  | zero =>
    intro s stream hlen _
    have hs : stream = [] := List.length_eq_zero.mp (by omega)
    subst hs
    exact ⟨s, rfl, rfl, rfl, rfl⟩
  | succ fuel ih =>
    intro s stream hlen hv
    by_cases hs : stream = []
    · subst hs
      exact ⟨s, rfl, rfl, rfl, rfl⟩
    · have hrest : (fgets_take (256 - 1) stream).2.length < stream.length :=
        fgets_take_length 254 stream hs
      have hfg : fgets 256 stream = some (fgets_take (256 - 1) stream) := by
        unfold fgets
        rw [if_neg hs]
      generalize fgets_take (256 - 1) stream = br at hrest hfg
      obtain ⟨buf, rest⟩ := br
      have hrest1 : rest.length ≤ fuel := by simp only at hrest; omega
      simp only [script_loop, script_lines, hfg] at hv ⊢
      split
      · rename_i hskip
        rw [if_pos hskip] at hv
        exact ih s rest hrest1 hv
      · rename_i hskip
        rw [if_neg hskip] at hv
        generalize (if (List.dropWhile isspace (cstr buf)).getLast? = some '\n'
          then (List.dropWhile isspace (cstr buf)).dropLast
          else List.dropWhile isspace (cstr buf)) = ln at hv ⊢
        obtain ⟨hv1, hv2⟩ := hv ln (List.mem_cons_self _ _)
        obtain ⟨r, s1, e1, e2, e3, e4⟩ := process_line_turns depth s ln hv1 hv2
        rw [e1]
        obtain ⟨s2, f1, f2, f3, f4⟩ := ih s1 rest hrest1
          (fun l hl => by
            rw [e3, e4]
            exact hv l (List.mem_cons_of_mem _ hl))
        refine ⟨s2, f1, ?_, f3.trans e3, f4.trans e4⟩
        rw [f2, e2]
        rfl

/-- Without a `reset` line the turn counter the lines lead to is the counter
before plus the number of instruction lines, modulo `2^64`. -/
theorem turns_by_lines_no_reset (lines : List (List Char)) :
    ∀ t : Nat, t < 18446744073709551616 →
      (∀ line ∈ lines, is_reset_line line = false) →
      turns_by_lines t lines =
        (t + (lines.filter is_instruction_line).length) % 18446744073709551616 := by
  induction lines with
  | nil =>
    intro t ht _
    simp only [turns_by_lines, List.filter_nil, List.length_nil, Nat.add_zero]
    exact (Nat.mod_eq_of_lt ht).symm
  | cons l rest ih =>
    intro t ht hr
    have hl : is_reset_line l = false := hr l (List.mem_cons_self _ _)
    have hrest : ∀ line ∈ rest, is_reset_line line = false :=
      fun x hx => hr x (List.mem_cons_of_mem _ hx)
    simp only [turns_by_lines, hl, Bool.false_eq_true, if_false]
    by_cases hi : is_instruction_line l = true
    · rw [if_pos hi, ih _ (Nat.mod_lt _ (by decide)) hrest, List.filter_cons, if_pos hi]
      simp only [List.length_cons]
      omega
    · rw [if_neg hi, ih _ ht hrest, List.filter_cons, if_neg hi]

/-- The script made of the single line `script t.txt`, where `t.txt` holds the
line `add r0 1`, has no instruction line of its own, and replaying it advances
the turn counter from 0 to 1. -/
theorem nested_script_adds_turns :
    ((script_lines 13 "script t.txt\n".toList).filter is_instruction_line).length = 0 ∧
    (run_script (process_line 1)
      { fresh with files := fun p =>
          if p = "s.txt".toList then some "script t.txt\n".toList
          else if p = "t.txt".toList then some "add r0 1\n".toList else none }
      "s.txt".toList).map (fun p => (p.1, p.2.cpu.turns)) = some (1, 1) := by
  decide

/-- C13: replaying with `run_script` a script whose lines are none of the
commands `script`, `quit` and `exit`, whose instruction lines have operands
that parse, and none of whose `save` lines writes to the script file itself or
to another script file still being replayed, returns 1 and leaves the turn
counter that the lines lead to one by one from the counter before: plus 1
modulo `2^64` at each add, sub, mul, mov and rand line, 0 at each `reset` line,
unchanged at every other line (skipped comment and blank lines are not even
dispatched).  Hence, when no line is a `reset`, the counter after is the
counter before plus the number of instruction lines, modulo `2^64`. -/
theorem run_script_turns (depth : Nat) (s : Session) (path content : List Char)
    (hfile : s.files path = some content)
    (ht : s.cpu.turns < 18446744073709551616)
    (hv : ∀ line ∈ script_lines content.length content, plain_valid_line line)
    (hsave : ∀ line ∈ script_lines content.length content, ∀ p,
      save_target line = some p →
        s.canon p ≠ s.canon path ∧ s.canon p ∉ s.open_scripts) :
    ∃ s1, run_script (process_line depth) s path = some (1, s1) ∧
      s1.cpu.turns = turns_by_lines s.cpu.turns (script_lines content.length content) ∧
      ((∀ line ∈ script_lines content.length content, is_reset_line line = false) →
        s1.cpu.turns = (s.cpu.turns +
          ((script_lines content.length content).filter is_instruction_line).length) %
            18446744073709551616) := by
  obtain ⟨s1, e1, e2, _, _⟩ := script_loop_turns depth content.length
    { s with open_scripts := s.canon path :: s.open_scripts } content (le_refl _)
    (fun line hl => ⟨hv line hl, fun p hp => by
      obtain ⟨h1, h2⟩ := hsave line hl p hp
      simp only [List.mem_cons, not_or]
      exact ⟨h1, h2⟩⟩)
  refine ⟨{ s1 with open_scripts := s.open_scripts }, ?_, e2, ?_⟩
  · simp only [run_script, hfile, e1, Option.map_some']
  · intro hr
    exact e2.trans (turns_by_lines_no_reset _ _ ht hr)

/-- C13 (witness): a script with a comment, a blank line, two instruction
lines, a `show` and a `save` to another file advances the turn counter from 0 to
2; with a `reset` line before the second instruction it leaves the counter at
1. -/
theorem run_script_turns_witness :
    (∃ s1, run_script (process_line 0)
        { fresh with files := fun p =>
            if p = "s.txt".toList
              then some "# demo\n\nadd r0 1\nshow\nmul r1 r2\nsave out.txt\n".toList
              else none }
        "s.txt".toList = some (1, s1) ∧ s1.cpu.turns = 2) ∧
    (∃ s1, run_script (process_line 0)
        { fresh with files := fun p =>
            if p = "s.txt".toList
              then some "add r0 1\nadd r0 1\nreset\nmul r1 r2\nsave out.txt\n".toList
              else none }
        "s.txt".toList = some (1, s1) ∧ s1.cpu.turns = 1) :=
  have h1 := run_script_turns 0
    { fresh with files := fun p =>
        if p = "s.txt".toList
          then some "# demo\n\nadd r0 1\nshow\nmul r1 r2\nsave out.txt\n".toList
          else none }
    "s.txt".toList "# demo\n\nadd r0 1\nshow\nmul r1 r2\nsave out.txt\n".toList
    (by decide) (by decide) (by decide) (by decide)
  have h2 := run_script_turns 0
    { fresh with files := fun p =>
        if p = "s.txt".toList
          then some "add r0 1\nadd r0 1\nreset\nmul r1 r2\nsave out.txt\n".toList
          else none }
    "s.txt".toList "add r0 1\nadd r0 1\nreset\nmul r1 r2\nsave out.txt\n".toList
    (by decide) (by decide) (by decide) (by decide)
  ⟨h1.elim fun s1 h => ⟨s1, h.1, (h.2.2 (by decide)).trans (by decide)⟩,
   h2.elim fun s1 h => ⟨s1, h.1, h.2.1.trans (by decide)⟩⟩

end ArmInvaders
